import Mathlib

/-!
# Lexiconnect transform engine: a verification development

This file embeds the core of the Lexiconnect system — the bidirectional
transform between FLEXText documents and the Neo4j-backed graph
representation — and proves the testable properties stated for it.

The backend transform engine itself (the FLEXText parser, the graph
materializer, the graph reader / tree reconstructor, the FLEXText
serializer and the statistics aggregator) ships outside this repository
snapshot; only its documentation is present
(`docs/flextext_export_mapping.md`, the export-system document with its
Cypher queries, and `backend/app/migrations/neo4j/schema.cypher`).
Those components are therefore modelled from the specification, and each
such definition says so in its doc comment.  The visualization graph
builder (`buildGraphFromData` in
`frontend/app/components/GraphVisualization.tsx`) is real repository
source and is embedded directly at the end of the file.
-/

/-! ## Document tree model

Modelled from the spec: the Document Tree Model of §3 (the in-memory
representation shared by the parser, materializer, reconstructor,
serializer and statistics aggregator; the Python classes are not in the
repository snapshot).  Entity identifiers are kept as they appear in the
source file: `none` means the source carried no explicit `guid` and a
deterministic identifier is synthesized at materialization time.
Word and Morpheme order is carried as an edge property, not a tree field
(spec §3), so child order at those levels is list position; Section and
Phrase keep their explicit `order` attributes. -/

/-- Morpheme type: one of `stem|prefix|suffix|infix|circumfix|root`
(spec §3, mapping doc line 83).  Constructor names are abbreviated
because several of the source words are Lean keywords. -/
inductive MorphType where
  | stem
  | pfx
  | sfx
  | ifx
  | cfx
  | root
deriving DecidableEq, Repr

/-- The `type` attribute string emitted for a morpheme type. -/
def MorphType.toAttr : MorphType → String
  | .stem => "stem"
  | .pfx => "prefix"
  | .sfx => "suffix"
  | .ifx => "infix"
  | .cfx => "circumfix"
  | .root => "root"

/-- The enumerated set of recognized morpheme `type` attribute values. -/
def morphTypeStrings : List String :=
  ["stem", "prefix", "suffix", "infix", "circumfix", "root"]

/-- Reading a `type` attribute value; `none` when the value is outside
the enumerated set. -/
def MorphType.ofAttr? (s : String) : Option MorphType :=
  if s == "stem" then some .stem
  else if s == "prefix" then some .pfx
  else if s == "suffix" then some .sfx
  else if s == "infix" then some .ifx
  else if s == "circumfix" then some .cfx
  else if s == "root" then some .root
  else none

/-- Modelled from the spec: Morpheme entity (spec §3). -/
structure Morpheme where
  id : Option String
  mtype : MorphType
  surface_form : String
  citation_form : Option String
  gloss : Option String
  msa : Option String
  language : Option String
deriving DecidableEq, Repr

/-- Modelled from the spec: Word entity (spec §3).  `is_punctuation`
true means the word has no morphemes and `surface_form` holds the
punctuation literal. -/
structure Word where
  id : Option String
  surface_form : String
  gloss : Option String
  pos : Option String
  language : Option String
  is_punctuation : Bool
  morphemes : List Morpheme
deriving DecidableEq, Repr

/-- Modelled from the spec: Phrase entity (spec §3). -/
structure Phrase where
  id : Option String
  order : Nat
  segnum : Option String
  surface_text : Option String
  language : Option String
  words : List Word
deriving DecidableEq, Repr

/-- Modelled from the spec: Section entity (spec §3; mapped to a
FLEXText `paragraph`). -/
structure Section where
  id : Option String
  order : Nat
  phrases : List Phrase
deriving DecidableEq, Repr

/-- Modelled from the spec: Document entity (spec §3; a FLEXText
`interlinear-text`). -/
structure Document where
  id : Option String
  title : Option String
  source : Option String
  comment : Option String
  default_language : Option String
  sections : List Section
deriving DecidableEq, Repr

/-! ## FLEXText element model

The document format, as described by `docs/flextext_export_mapping.md`
(the XML structure expected by the parser).  Each `item` element carries
a `type` attribute, an optional `lang` attribute and text content.
Wrapper containers (`paragraphs`, `phrases`, `words`, `morphemes`) are
modelled as `Option (List _)`: `none` when the container element is
absent, `some l` when present with children `l`. -/

structure XItem where
  itype : String
  lang : Option String
  text : String
deriving DecidableEq, Repr

structure XMorph where
  guid : Option String
  mtype : Option String
  items : List XItem
deriving DecidableEq, Repr

structure XWord where
  guid : Option String
  items : List XItem
  morphemes : Option (List XMorph)
deriving DecidableEq, Repr

structure XPhrase where
  guid : Option String
  items : List XItem
  words : Option (List XWord)
deriving DecidableEq, Repr

structure XParagraph where
  guid : Option String
  phrases : Option (List XPhrase)
deriving DecidableEq, Repr

structure XText where
  guid : Option String
  items : List XItem
  paragraphs : Option (List XParagraph)
deriving DecidableEq, Repr

/-- First `item` of a given `type` within an element's item list. -/
def findItem (t : String) (items : List XItem) : Option XItem :=
  items.find? (fun it => it.itype == t)

/-- Whether an item list contains an item of the given `type`. -/
def hasItem (t : String) (items : List XItem) : Bool :=
  items.any (fun it => it.itype == t)

/-! ## Format Serializer

Modelled from the spec: the Format Serializer of §4.4 together with the
DB→FLEXText mapping of `docs/flextext_export_mapping.md`
(`backend/app/exporters/flextext_exporter.py` is not in the repository
snapshot).  It emits containers only when children exist, omits any
absent attribute, and emits a `lang` attribute only where the entity's
resolved language differs from the inherited default. -/

/-- An optional `item`: nothing when the field is absent (omission, not
blanking — mapping doc "Round-trip invariants"). -/
def optItem (t : String) (o : Option String) : List XItem :=
  match o with
  | none => []
  | some v => [⟨t, none, v⟩]

/-- The `lang` attribute emitted for a resolved language against the
inherited default: omitted when the value is inherited, emitted when it
overrides or first establishes the default (spec §4.4). -/
def langAttr (inherited lang : Option String) : Option String :=
  if lang == inherited then none else lang

def serializeMorpheme (wlang : Option String) (m : Morpheme) : XMorph :=
  { guid := m.id
    mtype := some m.mtype.toAttr
    items := ⟨"txt", langAttr wlang m.language, m.surface_form⟩ ::
      (optItem "cf" m.citation_form ++ optItem "gls" m.gloss ++
        optItem "msa" m.msa) }

/-- A punctuation Word serializes to the punctuation-only form (`item
type="punct"`, morphemes container omitted); other Words carry `item
type="txt"` and their morphemes. -/
def serializeWord (plang : Option String) (w : Word) : XWord :=
  { guid := w.id
    items :=
      (if w.is_punctuation then
        (⟨"punct", langAttr plang w.language, w.surface_form⟩ : XItem)
      else ⟨"txt", langAttr plang w.language, w.surface_form⟩) ::
      (optItem "gls" w.gloss ++ optItem "pos" w.pos)
    morphemes :=
      if w.morphemes.isEmpty then none
      else some (w.morphemes.map (serializeMorpheme w.language)) }

def serializePhrase (dlang : Option String) (p : Phrase) : XPhrase :=
  { guid := p.id
    items := optItem "segnum" p.segnum ++
      (match p.surface_text with
       | none => []
       | some t => [⟨"txt", langAttr dlang p.language, t⟩])
    words :=
      if p.words.isEmpty then none
      else some (p.words.map (serializeWord p.language)) }

def serializeSection (dlang : Option String) (s : Section) : XParagraph :=
  { guid := s.id
    phrases :=
      if s.phrases.isEmpty then none
      else some (s.phrases.map (serializePhrase dlang)) }

/-- Serializes a Document tree to the FLEXText element form.  The
document default language rides on the `title` item's `lang` attribute
(mapping doc: "language_code (if known) → `item@lang` on `title`"). -/
def serializeInterlinearText (d : Document) : XText :=
  { guid := d.id
    items :=
      (match d.title with
       | none => []
       | some t => [(⟨"title", d.default_language, t⟩ : XItem)]) ++
      optItem "source" d.source ++ optItem "comment" d.comment
    paragraphs :=
      if d.sections.isEmpty then none
      else some (d.sections.map (serializeSection d.default_language)) }

/-! ## Format Parser

Modelled from the spec: the Format Parser of §4.1
(`backend/app/parsers/flextext_parser.py` is not in the repository
snapshot), against the element structure the mapping doc says the
parser consumes.  Language inheritance is applied top-down eagerly
while building the tree; a punctuation-type item makes the whole
word-level unit punctuation and morpheme parsing is skipped; an unknown
morpheme `type` is coerced to `stem` with a recorded warning; order
fields are taken from source position.  A wrapper container that is
absent yields zero children (a missing container is fatal only for a
populated child list, spec §4.1, and the serializer never emits an
empty container). -/

deriving instance DecidableEq for Except

/-- A recoverable-parse warning, attached to the affected entity via its
element path (spec §7: warnings are returned alongside success). -/
structure ParseWarning where
  target : String
  message : String
deriving DecidableEq, Repr

/-- A fatal parse failure carrying the offending element path (spec §7:
malformed input is reported with enough context to fix the source). -/
structure ParseError where
  path : String
  message : String
deriving DecidableEq, Repr

/-- Language fallback: an explicit tag wins over the inherited value. -/
def orDefault (a b : Option String) : Option String :=
  match a with
  | some v => some v
  | none => b

/-- Reading the morpheme `type` attribute: absent means `stem`; a value
outside the enumerated set is coerced to `stem` with a warning. -/
def parseMorphType (tgt : String) (a : Option String) :
    MorphType × List ParseWarning :=
  match a with
  | none => (.stem, [])
  | some s =>
    match MorphType.ofAttr? s with
    | some t => (t, [])
    | none =>
      (.stem, [⟨tgt, "unknown morpheme type " ++ s ++ " coerced to stem"⟩])

def parseMorpheme (wlang : Option String) (tgt : String) (xm : XMorph) :
    Except ParseError (Morpheme × List ParseWarning) :=
  match findItem "txt" xm.items with
  | none => .error ⟨tgt, "morph is missing its item type=txt"⟩
  | some txt =>
    let tw := parseMorphType tgt xm.mtype
    .ok ({ id := xm.guid
           mtype := tw.1
           surface_form := txt.text
           citation_form := (findItem "cf" xm.items).map (·.text)
           gloss := (findItem "gls" xm.items).map (·.text)
           msa := (findItem "msa" xm.items).map (·.text)
           language := orDefault txt.lang wlang }, tw.2)

def parseMorphemes (wlang : Option String) (base : String) :
    Nat → List XMorph → Except ParseError (List Morpheme × List ParseWarning)
  | _, [] => .ok ([], [])
  | i, xm :: rest => do
    let mw ← parseMorpheme wlang (base ++ "/morph-" ++ toString i) xm
    let msw ← parseMorphemes wlang base (i + 1) rest
    .ok (mw.1 :: msw.1, mw.2 ++ msw.2)

/-- Parses one word-level unit.  When a punctuation-type item is
present the Word is marked punctuation and morpheme parsing is skipped
entirely, regardless of whether a morpheme container is present
(spec §4.1, mapping doc note on `type="punct"`). -/
def parseWord (plang : Option String) (tgt : String) (xw : XWord) :
    Except ParseError (Word × List ParseWarning) :=
  match findItem "punct" xw.items with
  | some pItem =>
    .ok ({ id := xw.guid
           surface_form := pItem.text
           gloss := (findItem "gls" xw.items).map (·.text)
           pos := (findItem "pos" xw.items).map (·.text)
           language := orDefault pItem.lang plang
           is_punctuation := true
           morphemes := [] }, [])
  | none =>
    match findItem "txt" xw.items with
    | none => .error ⟨tgt, "word is missing item type=txt or type=punct"⟩
    | some txt => do
      let wlang := orDefault txt.lang plang
      let msw ← match xw.morphemes with
        | none => .ok ([], [])
        | some xms => parseMorphemes wlang tgt 0 xms
      .ok ({ id := xw.guid
             surface_form := txt.text
             gloss := (findItem "gls" xw.items).map (·.text)
             pos := (findItem "pos" xw.items).map (·.text)
             language := wlang
             is_punctuation := false
             morphemes := msw.1 }, msw.2)

def parseWords (plang : Option String) (base : String) :
    Nat → List XWord → Except ParseError (List Word × List ParseWarning)
  | _, [] => .ok ([], [])
  | i, xw :: rest => do
    let ww ← parseWord plang (base ++ "/word-" ++ toString i) xw
    let wsw ← parseWords plang base (i + 1) rest
    .ok (ww.1 :: wsw.1, ww.2 ++ wsw.2)

/-- Parses a phrase; `i` is the source position, which becomes the
structural `order` (spec §4.1).  The phrase's `item type="txt"` carries
its surface text; its `lang` attribute, when present, overrides the
inherited document default for the phrase and its children. -/
def parsePhrase (dlang : Option String) (tgt : String) (i : Nat)
    (xp : XPhrase) : Except ParseError (Phrase × List ParseWarning) :=
  let txt := findItem "txt" xp.items
  let plang := orDefault (txt.bind (·.lang)) dlang
  let mk : List Word → Phrase := fun ws =>
    { id := xp.guid
      order := i
      segnum := (findItem "segnum" xp.items).map (·.text)
      surface_text := txt.map (·.text)
      language := plang
      words := ws }
  match xp.words with
  | none => .ok (mk [], [])
  | some xws => do
    let wsw ← parseWords plang tgt 0 xws
    .ok (mk wsw.1, wsw.2)

def parsePhrases (dlang : Option String) (base : String) :
    Nat → List XPhrase → Except ParseError (List Phrase × List ParseWarning)
  | _, [] => .ok ([], [])
  | i, xp :: rest => do
    let pw ← parsePhrase dlang (base ++ "/phrase-" ++ toString i) i xp
    let psw ← parsePhrases dlang base (i + 1) rest
    .ok (pw.1 :: psw.1, pw.2 ++ psw.2)

def parseSection (dlang : Option String) (tgt : String) (i : Nat)
    (xpar : XParagraph) : Except ParseError (Section × List ParseWarning) :=
  match xpar.phrases with
  | none => .ok ({ id := xpar.guid, order := i, phrases := [] }, [])
  | some xps => do
    let psw ← parsePhrases dlang tgt 0 xps
    .ok ({ id := xpar.guid, order := i, phrases := psw.1 }, psw.2)

def parseSections (dlang : Option String) (base : String) :
    Nat → List XParagraph →
      Except ParseError (List Section × List ParseWarning)
  | _, [] => .ok ([], [])
  | i, xpar :: rest => do
    let sw ← parseSection dlang (base ++ "/paragraph-" ++ toString i) i xpar
    let ssw ← parseSections dlang base (i + 1) rest
    .ok (sw.1 :: ssw.1, sw.2 ++ ssw.2)

/-- Parses a FLEXText `interlinear-text` into a Document tree.  The
first language tag seen on a title-type item becomes
`default_language` (spec §4.1). -/
def parseInterlinearText (x : XText) :
    Except ParseError (Document × List ParseWarning) :=
  let dlang :=
    (x.items.find? (fun it => it.itype == "title" && it.lang.isSome)).bind
      (·.lang)
  let mk : List Section → Document := fun ss =>
    { id := x.guid
      title := (findItem "title" x.items).map (·.text)
      source := (findItem "source" x.items).map (·.text)
      comment := (findItem "comment" x.items).map (·.text)
      default_language := dlang
      sections := ss }
  match x.paragraphs with
  | none => .ok (mk [], [])
  | some xpars => do
    let ssw ← parseSections dlang "interlinear-text" 0 xpars
    .ok (mk ssw.1, ssw.2)

/-! ## Valid Document Trees

The validity predicate for Document Trees, from the invariants of spec
§3 and the construction discipline of §4.1: punctuation exclusivity; the
eager top-down language resolution (an entity of a scope whose enclosing
scope has a language also carries one, because inheritance was resolved
once, eagerly, at construction); the document default language rides on
the title item and a phrase-level override needs the phrase `txt` item
to carry it; and order fields equal source position. -/

/-- `true` when whenever the inherited language is present the entity's
resolved language is present too (eager inheritance, spec §4.1). -/
def langResolved (inherited lang : Option String) : Bool :=
  !inherited.isSome || lang.isSome

def validMorpheme (wlang : Option String) (m : Morpheme) : Bool :=
  langResolved wlang m.language

def validWord (plang : Option String) (w : Word) : Bool :=
  langResolved plang w.language &&
  (!w.is_punctuation || w.morphemes.isEmpty) &&
  w.morphemes.all (validMorpheme w.language)

def validPhrase (dlang : Option String) (p : Phrase) : Bool :=
  langResolved dlang p.language &&
  (p.language == dlang || p.surface_text.isSome) &&
  p.words.all (validWord p.language)

/-- Phrase `order` fields equal source position, counting from `i`. -/
def phrasesOrdered : Nat → List Phrase → Bool
  | _, [] => true
  | i, p :: rest => p.order == i && phrasesOrdered (i + 1) rest

def validSection (dlang : Option String) (s : Section) : Bool :=
  phrasesOrdered 0 s.phrases && s.phrases.all (validPhrase dlang)

/-- Section `order` fields equal source position, counting from `i`. -/
def sectionsOrdered : Nat → List Section → Bool
  | _, [] => true
  | i, s :: rest => s.order == i && sectionsOrdered (i + 1) rest

def validDocument (d : Document) : Bool :=
  (!d.default_language.isSome || d.title.isSome) &&
  sectionsOrdered 0 d.sections &&
  d.sections.all (validSection d.default_language)

/-- A concrete valid Document Tree (the mapping doc's minimal example,
with its punctuation-word and POS examples folded in), used to witness
the hypotheses of the round-trip theorems. -/
def sampleDoc : Document :=
  { id := some "T1"
    title := some "Sample Text"
    source := some "fieldwork"
    comment := none
    default_language := some "nhi-Latn"
    sections :=
      [{ id := none, order := 0
         phrases :=
          [{ id := none, order := 0, segnum := some "1"
             surface_text := some "kani", language := some "nhi-Latn"
             words :=
              [{ id := none, surface_form := "kani", gloss := none
                 pos := none, language := some "nhi-Latn"
                 is_punctuation := false
                 morphemes :=
                  [{ id := none, mtype := .pfx, surface_form := "ka"
                     citation_form := none, gloss := some "1sg"
                     msa := none, language := some "nhi-Latn" },
                   { id := none, mtype := .stem, surface_form := "ni"
                     citation_form := none, gloss := none, msa := none
                     language := some "nhi-Latn" }] },
               { id := none, surface_form := "yi", gloss := some "dog"
                 pos := some "NOUN", language := some "nhi-Latn"
                 is_punctuation := false, morphemes := [] },
               { id := none, surface_form := ".", gloss := none
                 pos := none, language := some "nhi-Latn"
                 is_punctuation := true, morphemes := [] }] }] }] }

/-- Punctuation exclusivity for one Word (spec §3). -/
def wordPunctOK (w : Word) : Bool :=
  !w.is_punctuation || w.morphemes.isEmpty

/-- Punctuation exclusivity over a whole tree (spec §8). -/
def docPunctOK (d : Document) : Bool :=
  d.sections.all fun s => s.phrases.all fun p => p.words.all wordPunctOK

/-- Order and phrase-order invariants for a whole parsed document. -/
def docOrdersOK (d : Document) : Bool :=
  sectionsOrdered 0 d.sections &&
    d.sections.all fun s => phrasesOrdered 0 s.phrases

/-- "Strictly increasing starting at 0" for a list of order values. -/
def StrictlyIncreasingFrom0 (l : List Nat) : Prop :=
  List.Chain' (· < ·) l ∧ ∀ a ∈ l.head?, a = 0

/-- A word-level element carrying only a surface-text item. -/
def bareXWord : XWord := ⟨none, [⟨"txt", none, "hi"⟩], none⟩

/-- A morpheme element carrying only a surface-text item. -/
def bareXMorph : XMorph := ⟨none, none, [⟨"txt", none, "ka"⟩]⟩

/-- A phrase element with no items and no words container. -/
def bareXPhrase : XPhrase := ⟨none, [], none⟩

/-- An interlinear-text element with no items and no paragraphs. -/
def bareX : XText := ⟨none, [], none⟩

/-- A morpheme with every optional attribute absent. -/
def bareMorpheme : Morpheme := ⟨none, .stem, "ka", none, none, none, none⟩

/-- A word with every optional attribute absent. -/
def bareWord : Word := ⟨none, "hi", none, none, none, false, []⟩

/-- A phrase with every optional attribute absent. -/
def barePhrase : Phrase := ⟨none, 0, none, none, none, []⟩

/-- A document with every optional attribute absent. -/
def bareDoc : Document := ⟨none, none, none, none, none, []⟩

/-- A source document containing one morpheme whose `type` attribute
value `"glottal"` is outside the enumerated set. -/
def badTypeX : XText :=
  { guid := some "T2"
    items := [⟨"title", some "en", "Bad type"⟩]
    paragraphs := some
      [{ guid := none
         phrases := some
          [{ guid := none
             items := [⟨"txt", none, "ka"⟩]
             words := some
              [{ guid := none
                 items := [⟨"txt", none, "ka"⟩]
                 morphemes := some
                  [{ guid := none, mtype := some "glottal"
                     items := [⟨"txt", none, "ka"⟩] }] }] }] }] }

/-- The tree `badTypeX` parses to: the offending morpheme's type is
coerced to `stem` and everything else is kept. -/
def badTypeDoc : Document :=
  { id := some "T2"
    title := some "Bad type"
    source := none
    comment := none
    default_language := some "en"
    sections :=
      [{ id := none, order := 0
         phrases :=
          [{ id := none, order := 0, segnum := none
             surface_text := some "ka", language := some "en"
             words :=
              [{ id := none, surface_form := "ka", gloss := none
                 pos := none, language := some "en"
                 is_punctuation := false
                 morphemes :=
                  [{ id := none, mtype := .stem, surface_form := "ka"
                     citation_form := none, gloss := none, msa := none
                     language := some "en" }] }] }] }] }

/-- A morpheme element with the out-of-range type value `"glottal"`. -/
def badTypeXMorph : XMorph :=
  ⟨none, some "glottal", [⟨"txt", none, "ka"⟩]⟩

/-! ## Statistics Aggregator

Modelled from the spec: the corpus statistics aggregator of §4.5; the
record's field names are those consumed by the frontend
`CorpusStatisticsProps` component.  The aggregator derives its
quality/coverage metrics from the Document Tree. -/

structure CorpusStatistics where
  total_texts : Nat
  annotated_texts : Nat
  total_sections : Nat
  total_phrases : Nat
  total_words : Nat
  words_by_whitespace : Nat
  words_with_morphemes : Nat
  words_with_only_translation : Nat
  total_morphemes : Nat
  languages : List String
  morpheme_types : List (String × Nat)
  pos_tags : List String
deriving DecidableEq, Repr

/-- All words of a document, in document order. -/
def docWords (d : Document) : List Word :=
  d.sections.flatMap fun s => s.phrases.flatMap fun p => p.words

/-- All morphemes of a document, in document order. -/
def docMorphemes (d : Document) : List Morpheme :=
  (docWords d).flatMap Word.morphemes

/-- Modelled from the spec: the per-document statistics record
(spec §4.5).  "Annotated" means at least one Word has a non-absent
gloss or at least one Morpheme is present; "words with only
translation" are Words with a gloss, zero Morphemes and not
punctuation. -/
def computeStatistics (d : Document) : CorpusStatistics :=
  let ws := docWords d
  let ms := docMorphemes d
  { total_texts := 1
    annotated_texts :=
      if ws.any (fun w => w.gloss.isSome || !w.morphemes.isEmpty)
      then 1 else 0
    total_sections := d.sections.length
    total_phrases := (d.sections.map fun s => s.phrases.length).sum
    total_words := ws.length
    words_by_whitespace := (ws.filter fun w => !w.is_punctuation).length
    words_with_morphemes := (ws.filter fun w => !w.morphemes.isEmpty).length
    words_with_only_translation :=
      (ws.filter fun w =>
        w.gloss.isSome && w.morphemes.isEmpty && !w.is_punctuation).length
    total_morphemes := ms.length
    languages :=
      ((d.default_language.toList ++ ws.filterMap Word.language) ++
        ms.filterMap Morpheme.language).dedup
    morpheme_types :=
      morphTypeStrings.map fun t =>
        (t, (ms.filter fun m => m.mtype.toAttr == t).length)
    pos_tags := (ws.filterMap Word.pos).dedup }

/-- The Scenario A document of spec §8: one Section, one Phrase
(`segnum = "1"`, text `"kani"`), one Word (`"kani"`) composed of a
prefix morpheme (`"ka"`, gloss `"1sg"`) and a stem morpheme (`"ni"`). -/
def scenarioADoc : Document :=
  { id := none
    title := none
    source := none
    comment := none
    default_language := none
    sections :=
      [{ id := none, order := 0
         phrases :=
          [{ id := none, order := 0, segnum := some "1"
             surface_text := some "kani", language := none
             words :=
              [{ id := none, surface_form := "kani", gloss := none
                 pos := none, language := none
                 is_punctuation := false
                 morphemes :=
                  [{ id := none, mtype := .pfx, surface_form := "ka"
                     citation_form := none, gloss := some "1sg"
                     msa := none, language := none },
                   { id := none, mtype := .stem, surface_form := "ni"
                     citation_form := none, gloss := none, msa := none
                     language := none }] }] }] }] }

/-! ## Visualization graph builder

Embedded from `frontend/app/components/GraphVisualization.tsx`
(`buildGraphFromData` and its helpers).  The JavaScript `||`-defaulting
of falsy values (`node.size || 10`, `node.label || nodeId`,
`edge.type || ""`) is modelled explicitly; node ids arrive already
string-coerced (the source applies `String(node.id)`).  The
ForceAtlas2 layout pass and the dense-graph styling adjustments touch
only positions, sizes and colors — never the node or edge sets — and
the position/styling attributes irrelevant to graph structure are not
modelled. -/

structure GNode where
  id : String
  label : Option String
  size : Option Nat
  color : Option String
  ntype : Option String
deriving DecidableEq, Repr

structure GEdge where
  source : String
  target : String
  etype : Option String
deriving DecidableEq, Repr

structure GraphData where
  nodes : List GNode
  edges : List GEdge
deriving DecidableEq, Repr

structure SigmaNode where
  id : String
  label : String
  size : Nat
  color : String
  nodeType : Option String
deriving DecidableEq, Repr

structure SigmaEdge where
  source : String
  target : String
  relationshipType : String
deriving DecidableEq, Repr

structure SigmaGraph where
  nodes : List SigmaNode
  edges : List SigmaEdge
deriving DecidableEq, Repr

/-- `graph.hasNode` on a node list. -/
def hasNodeL (ns : List SigmaNode) (id : String) : Bool :=
  ns.any fun n => n.id == id

def SigmaGraph.hasNode (g : SigmaGraph) (id : String) : Bool :=
  hasNodeL g.nodes id

/-- `node.size || 10` (JavaScript: `0` is falsy). -/
def sizeOrDefault : Option Nat → Nat
  | some s => if s == 0 then 10 else s
  | none => 10

/-- `node.label || nodeId` (JavaScript: `""` is falsy). -/
def labelOrDefault (label : Option String) (id : String) : String :=
  match label with
  | some l => if l == "" then id else l
  | none => id

/-- The size floor applied per node type in `buildGraphFromData`. -/
def dynamicSize (ntype : Option String) (base : Nat) : Nat :=
  if ntype == some "Text" then max base 25
  else if ntype == some "Section" then max base 18
  else if ntype == some "Phrase" then max base 12
  else if ntype == some "Word" then max base 8
  else if ntype == some "Morpheme" then max base 5
  else if ntype == some "Gloss" then max base 6
  else base

/-- `graph.addNode(...)` for one input node record. -/
def mkSigmaNode (n : GNode) : SigmaNode :=
  { id := n.id
    label := labelOrDefault n.label n.id
    size := dynamicSize n.ntype (sizeOrDefault n.size)
    color := n.color.getD "#64748b"
    nodeType := n.ntype }

/-- The node-adding loop: a node whose id is already present is
skipped (the source logs a duplicate warning and returns early). -/
def addNodes (g : SigmaGraph) : List GNode → SigmaGraph
  | [] => g
  | n :: rest =>
    if g.hasNode n.id then addNodes g rest
    else addNodes { g with nodes := g.nodes ++ [mkSigmaNode n] } rest

/-- `graph.addEdge(...)` attributes for one input edge record. -/
def mkSigmaEdge (e : GEdge) : SigmaEdge :=
  { source := e.source, target := e.target
    relationshipType := e.etype.getD "" }

/-- The edge-adding loop: an edge is added only when both endpoint
nodes exist; otherwise it is skipped (the source logs a warning). -/
def addEdges (g : SigmaGraph) : List GEdge → SigmaGraph
  | [] => g
  | e :: rest =>
    if g.hasNode e.source && g.hasNode e.target then
      addEdges { g with edges := g.edges ++ [mkSigmaEdge e] } rest
    else addEdges g rest

/-- The placeholder node created when the input has no nodes. -/
def emptyPlaceholderNode : SigmaNode :=
  { id := "empty"
    label := "No data yet - upload a .flextext file!"
    size := 20
    color := "#64748b"
    nodeType := some "Empty" }

/-- `buildGraphFromData` from `GraphVisualization.tsx`. -/
def buildGraphFromData (data : GraphData) : SigmaGraph :=
  if data.nodes.length > 0 then
    addEdges (addNodes ⟨[], []⟩ data.nodes) data.edges
  else
    { nodes := [emptyPlaceholderNode], edges := [] }

/-- Graph data with one dangling edge (`"a" → "zzz"`). -/
def graphData0 : GraphData :=
  { nodes := [⟨"a", none, none, none, some "Word"⟩,
              ⟨"b", none, none, none, none⟩]
    edges := [⟨"a", "b", some "PHRASE_COMPOSED_OF"⟩,
              ⟨"a", "zzz", none⟩] }

/-- Graph data with no nodes at all (its edges are dangling too). -/
def graphDataEmpty : GraphData := ⟨[], [⟨"a", "b", none⟩]⟩

/-! ## Graph Materializer

Modelled from the spec: the Graph Materializer of §4.2, with node
labels, relationship kinds and property names taken from
`backend/app/migrations/neo4j/schema.cypher` and the Cypher queries in
the export-system document (`t.title`, `s.order`, `p.segnum`,
`w.surface_form`, `r.Order` on `PHRASE_COMPOSED_OF`, `rm.Order` on
`WORD_MADE_OF`, …).  Absent optional attributes are omitted from the
property map (the omission invariant), section and phrase order are
node properties, word and morpheme order are edge properties, and the
denormalized `SECTION_CONTAINS` edge to each word is emitted alongside
the phrase-composition path.  An identifier absent from the source is
synthesized as a pure function of the parent id, the entity kind and
the child index (spec §9). -/

inductive NodeKind where
  | text
  | section
  | phrase
  | word
  | morpheme
deriving DecidableEq, Repr

inductive EdgeKind where
  | sectionPartOfText
  | sectionContains
  | phraseInSection
  | phraseComposedOf
  | wordMadeOf
deriving DecidableEq, Repr

/-- A property value stored on a graph node. -/
inductive PropVal where
  | s (v : String)
  | n (v : Nat)
  | b (v : Bool)
deriving DecidableEq, Repr

structure NodeUp where
  kind : NodeKind
  id : String
  props : List (String × PropVal)
deriving DecidableEq, Repr

structure EdgeUp where
  kind : EdgeKind
  fromId : String
  toId : String
  order : Option Nat
deriving DecidableEq, Repr

/-- An ordered batch of node and edge upserts (spec §4.2). -/
structure Batch where
  nodes : List NodeUp
  edges : List EdgeUp
deriving DecidableEq, Repr

/-- A property present only when the attribute is. -/
def optProp (k : String) (o : Option String) : List (String × PropVal) :=
  match o with
  | none => []
  | some v => [(k, .s v)]

/-- Deterministic identifier for an entity without a source id: a pure
function of parent id, entity kind and child index (spec §9). -/
def synthId (parent : String) (kind : String) (i : Nat) : String :=
  parent ++ "/" ++ kind ++ "-" ++ toString i

/-- The stored identifier: the source `guid` when present, otherwise
the synthesized one. -/
def finalId (guid : Option String) (parent : String) (kind : String)
    (i : Nat) : String :=
  guid.getD (synthId parent kind i)

def morphemeProps (m : Morpheme) : List (String × PropVal) :=
  [("type", .s m.mtype.toAttr), ("surface_form", .s m.surface_form)] ++
    optProp "citation_form" m.citation_form ++ optProp "gloss" m.gloss ++
    optProp "msa" m.msa ++ optProp "language" m.language

def wordProps (w : Word) : List (String × PropVal) :=
  [("surface_form", .s w.surface_form)] ++ optProp "gloss" w.gloss ++
    optProp "pos" w.pos ++ optProp "language" w.language ++
    [("is_punctuation", .b w.is_punctuation)]

def phraseProps (p : Phrase) : List (String × PropVal) :=
  [("order", .n p.order)] ++ optProp "segnum" p.segnum ++
    optProp "surface_text" p.surface_text ++ optProp "language" p.language

def sectionProps (s : Section) : List (String × PropVal) :=
  [("order", .n s.order)]

def textProps (d : Document) : List (String × PropVal) :=
  optProp "title" d.title ++ optProp "source" d.source ++
    optProp "comment" d.comment ++
    optProp "language_code" d.default_language

def materializeMorphemes (wid : String) : Nat → List Morpheme → Batch
  | _, [] => ⟨[], []⟩
  | i, m :: rest =>
    let mid := finalId m.id wid "morph" i
    let b := materializeMorphemes wid (i + 1) rest
    ⟨⟨.morpheme, mid, morphemeProps m⟩ :: b.nodes,
     ⟨.wordMadeOf, wid, mid, some i⟩ :: b.edges⟩

def materializeWords (sid pid : String) : Nat → List Word → Batch
  | _, [] => ⟨[], []⟩
  | i, w :: rest =>
    let wid := finalId w.id pid "word" i
    let bm := materializeMorphemes wid 0 w.morphemes
    let b := materializeWords sid pid (i + 1) rest
    ⟨⟨.word, wid, wordProps w⟩ :: (bm.nodes ++ b.nodes),
     ⟨.phraseComposedOf, pid, wid, some i⟩ ::
       ⟨.sectionContains, sid, wid, none⟩ :: (bm.edges ++ b.edges)⟩

def materializePhrases (sid : String) : Nat → List Phrase → Batch
  | _, [] => ⟨[], []⟩
  | i, p :: rest =>
    let pid := finalId p.id sid "phrase" i
    let bw := materializeWords sid pid 0 p.words
    let b := materializePhrases sid (i + 1) rest
    ⟨⟨.phrase, pid, phraseProps p⟩ :: (bw.nodes ++ b.nodes),
     ⟨.phraseInSection, sid, pid, none⟩ :: (bw.edges ++ b.edges)⟩

def materializeSections (tid : String) : Nat → List Section → Batch
  | _, [] => ⟨[], []⟩
  | i, s :: rest =>
    let sid := finalId s.id tid "section" i
    let bp := materializePhrases sid 0 s.phrases
    let b := materializeSections tid (i + 1) rest
    ⟨⟨.section, sid, sectionProps s⟩ :: (bp.nodes ++ b.nodes),
     ⟨.sectionPartOfText, tid, sid, none⟩ :: (bp.edges ++ b.edges)⟩

/-- The stored identifier of the Document itself. -/
def docFinalId (d : Document) : String := d.id.getD "text-0"

/-- The whole write batch for one Document (spec §4.2): one node per
entity, containment edges per level, idempotent upserts. -/
def materializeDocument (d : Document) : Batch :=
  let tid := docFinalId d
  let bs := materializeSections tid 0 d.sections
  ⟨⟨.text, tid, textProps d⟩ :: bs.nodes, bs.edges⟩

/-! ## The stored subgraph and upsert application

Modelled from the spec: the storage write contract of §6 — an
idempotent batch of `(node-kind, id, attributes)` upserts and
`(edge-kind, from, to, order?)` upserts.  A node upsert keyed by `id`
overwrites all attributes (clearing stale optional ones); an edge
upsert is keyed by `(kind, from, to)`.  (The wholesale deletion of
edges that are no longer present in a re-imported tree is the storage
backend's replace-subtree obligation and is not needed for re-applying
an identical batch.) -/

structure Store where
  nodes : List NodeUp
  edges : List EdgeUp
deriving DecidableEq, Repr

def emptyStore : Store := ⟨[], []⟩

/-- Generic keyed upsert into an association list: overwrite in place
when the key exists, append otherwise. -/
def upsertBy {α κ : Type} [DecidableEq κ] (key : α → κ) (l : List α)
    (u : α) : List α :=
  if l.any (fun v => decide (key v = key u)) then
    l.map fun v => if key v = key u then u else v
  else l ++ [u]

/-- The identity key of an edge upsert. -/
def edgeKey (e : EdgeUp) : EdgeKind × String × String :=
  (e.kind, e.fromId, e.toId)

/-- Applying a batch to the store: node upserts keyed by id, edge
upserts keyed by `(kind, from, to)`. -/
def applyBatch (b : Batch) (st : Store) : Store :=
  ⟨b.nodes.foldl (upsertBy NodeUp.id) st.nodes,
   b.edges.foldl (upsertBy edgeKey) st.edges⟩

/-! ## Graph Reader and Tree Reconstructor

Modelled from the spec: the Graph Reader / Tree Reconstructor of §4.3
(`backend/app/services/neo4j_service.py` and the exporters are not in
the repository snapshot), shaped after the Cypher queries documented in
the export-system document: match the `Text` node by id, then collect
Sections ordered by `Section.order`, Phrases per Section by
`Phrase.order`, Words per Phrase by the `PHRASE_COMPOSED_OF` edge
`Order`, and Morphemes per Word by the `WORD_MADE_OF` edge `Order`.
An id that does not resolve to a Text node is a distinct not-found
failure, never an empty tree (spec §4.3/§7; export-system doc error
table: 404 when `file_id` does not resolve to a `Text` node). -/

def findNode (st : Store) (k : NodeKind) (id : String) : Option NodeUp :=
  st.nodes.find? fun n => decide (n.kind = k ∧ n.id = id)

def getS (props : List (String × PropVal)) (k : String) : Option String :=
  match props.find? (fun p => p.1 == k) with
  | some (_, .s v) => some v
  | _ => none

def getN (props : List (String × PropVal)) (k : String) : Option Nat :=
  match props.find? (fun p => p.1 == k) with
  | some (_, .n v) => some v
  | _ => none

def getB (props : List (String × PropVal)) (k : String) : Option Bool :=
  match props.find? (fun p => p.1 == k) with
  | some (_, .b v) => some v
  | _ => none

/-- Insertion into a key-sorted list (stable for equal keys). -/
def insertByKey {α : Type} (x : Nat × α) :
    List (Nat × α) → List (Nat × α)
  | [] => [x]
  | y :: r => if x.1 ≤ y.1 then x :: y :: r else y :: insertByKey x r

/-- Insertion sort by the `Nat` key — the `ORDER BY` of the read
contract. -/
def sortByKey {α : Type} : List (Nat × α) → List (Nat × α)
  | [] => []
  | x :: r => insertByKey x (sortByKey r)

/-- The `order` node property read back as a number. -/
def nodeOrder (n : NodeUp) : Nat := (getN n.props "order").getD 0

/-- The generic shape of one level of the read contract: follow the
containment edges of one kind out of a parent id, look the children up
by node kind, and return them ordered by the given order key. -/
def readBy (st : Store) (ek : EdgeKind) (nk : NodeKind)
    (key : EdgeUp → NodeUp → Nat) (pid : String) : List NodeUp :=
  (sortByKey
    ((st.edges.filter fun e =>
        decide (e.kind = ek ∧ e.fromId = pid)).filterMap
      fun e => (findNode st nk e.toId).map fun n => (key e n, n))).map
    (·.2)

/-- Sections of a text, ordered by the `order` node property. -/
def readSections (st : Store) (tid : String) : List NodeUp :=
  readBy st .sectionPartOfText .section (fun _ n => nodeOrder n) tid

/-- Phrases of a section, ordered by the `order` node property. -/
def readPhrases (st : Store) (sid : String) : List NodeUp :=
  readBy st .phraseInSection .phrase (fun _ n => nodeOrder n) sid

/-- Words of a phrase, ordered by the composition edge `Order`. -/
def readWords (st : Store) (pid : String) : List NodeUp :=
  readBy st .phraseComposedOf .word (fun e _ => e.order.getD 0) pid

/-- Morphemes of a word, ordered by the `WORD_MADE_OF` edge `Order`. -/
def readMorphemes (st : Store) (wid : String) : List NodeUp :=
  readBy st .wordMadeOf .morpheme (fun e _ => e.order.getD 0) wid

inductive ExportError where
  | notFound
  | missingAttr (id : String) (attr : String)
deriving DecidableEq, Repr

deriving instance DecidableEq for Except

def reconstructMorpheme (n : NodeUp) : Except ExportError Morpheme :=
  match getS n.props "surface_form" with
  | none => .error (.missingAttr n.id "surface_form")
  | some sf =>
    .ok { id := some n.id
          mtype := match getS n.props "type" with
            | some t => (MorphType.ofAttr? t).getD .stem
            | none => .stem
          surface_form := sf
          citation_form := getS n.props "citation_form"
          gloss := getS n.props "gloss"
          msa := getS n.props "msa"
          language := getS n.props "language" }

def reconstructMorphemes : List NodeUp → Except ExportError (List Morpheme)
  | [] => .ok []
  | n :: rest => do
    let m ← reconstructMorpheme n
    let ms ← reconstructMorphemes rest
    .ok (m :: ms)

/-- The reconstructor trusts the stored punctuation flag — it does not
re-derive punctuation (spec §4.3). -/
def reconstructWord (st : Store) (n : NodeUp) : Except ExportError Word :=
  match getS n.props "surface_form" with
  | none => .error (.missingAttr n.id "surface_form")
  | some sf => do
    let ms ← reconstructMorphemes (readMorphemes st n.id)
    .ok { id := some n.id
          surface_form := sf
          gloss := getS n.props "gloss"
          pos := getS n.props "pos"
          language := getS n.props "language"
          is_punctuation := (getB n.props "is_punctuation").getD false
          morphemes := ms }

def reconstructWords (st : Store) :
    List NodeUp → Except ExportError (List Word)
  | [] => .ok []
  | n :: rest => do
    let w ← reconstructWord st n
    let ws ← reconstructWords st rest
    .ok (w :: ws)

def reconstructPhrase (st : Store) (n : NodeUp) :
    Except ExportError Phrase := do
  let ws ← reconstructWords st (readWords st n.id)
  .ok { id := some n.id
        order := (getN n.props "order").getD 0
        segnum := getS n.props "segnum"
        surface_text := getS n.props "surface_text"
        language := getS n.props "language"
        words := ws }

def reconstructPhrases (st : Store) :
    List NodeUp → Except ExportError (List Phrase)
  | [] => .ok []
  | n :: rest => do
    let p ← reconstructPhrase st n
    let ps ← reconstructPhrases st rest
    .ok (p :: ps)

def reconstructSection (st : Store) (n : NodeUp) :
    Except ExportError Section := do
  let ps ← reconstructPhrases st (readPhrases st n.id)
  .ok { id := some n.id
        order := (getN n.props "order").getD 0
        phrases := ps }

def reconstructSections (st : Store) :
    List NodeUp → Except ExportError (List Section)
  | [] => .ok []
  | n :: rest => do
    let s ← reconstructSection st n
    let ss ← reconstructSections st rest
    .ok (s :: ss)

/-- Rebuilds the Document tree for one id; a Document id with no
matching `Text` node is a distinct not-found failure. -/
def reconstructDocument (st : Store) (tid : String) :
    Except ExportError Document :=
  match findNode st .text tid with
  | none => .error .notFound
  | some n => do
    let ss ← reconstructSections st (readSections st tid)
    .ok { id := some tid
          title := getS n.props "title"
          source := getS n.props "source"
          comment := getS n.props "comment"
          default_language := getS n.props "language_code"
          sections := ss }

/-- The export path: read and reconstruct the tree, then serialize it
to the document format. -/
def exportDocument (st : Store) (tid : String) :
    Except ExportError XText :=
  (reconstructDocument st tid).map serializeInterlinearText

/-! ## Scenario D: language inheritance through the pipeline -/

/-- Scenario D source: document default language `"en"` established on
the title item; the phrase and word carry no explicit language. -/
def scenarioDX : XText :=
  { guid := some "T5"
    items := [⟨"title", some "en", "Scenario D"⟩]
    paragraphs := some
      [{ guid := none
         phrases := some
          [{ guid := none
             items := [⟨"txt", none, "hola"⟩]
             words := some
              [{ guid := none
                 items := [⟨"txt", none, "hola"⟩]
                 morphemes := none }] }] }] }

/-- Scenario D parsed: inheritance is resolved eagerly, so the phrase
and word both carry the inherited `"en"`. -/
def scenarioDParsed : Document :=
  { id := some "T5", title := some "Scenario D", source := none
    comment := none, default_language := some "en"
    sections := [{ id := none, order := 0, phrases :=
      [{ id := none, order := 0, segnum := none
         surface_text := some "hola", language := some "en"
         words := [{ id := none, surface_form := "hola", gloss := none
                     pos := none, language := some "en"
                     is_punctuation := false, morphemes := [] }] }] }] }

/-- The stored subgraph of the Scenario D document. -/
def scenarioDStore : Store :=
  applyBatch (materializeDocument scenarioDParsed) emptyStore

/-- Scenario D reconstructed: identical up to the synthesized
identifiers the materializer assigned. -/
def scenarioDReconstructed : Document :=
  { id := some "T5", title := some "Scenario D", source := none
    comment := none, default_language := some "en"
    sections := [{ id := some "T5/section-0", order := 0, phrases :=
      [{ id := some "T5/section-0/phrase-0", order := 0, segnum := none
         surface_text := some "hola", language := some "en"
         words := [{ id := some "T5/section-0/phrase-0/word-0"
                     surface_form := "hola", gloss := none
                     pos := none, language := some "en"
                     is_punctuation := false, morphemes := [] }] }] }] }

/-- The `lang` attributes on word-level surface items of a serialized
document, in document order. -/
def wordLangAttrs (x : XText) : List (Option String) :=
  (x.paragraphs.getD []).flatMap fun par =>
    (par.phrases.getD []).flatMap fun ph =>
      (ph.words.getD []).flatMap fun w =>
        (w.items.filter fun it =>
          it.itype == "txt" || it.itype == "punct").map (·.lang)

/-- Stored-shape invariant for punctuation (what §4.2 materialization
writes): a word node carrying the punctuation flag owns no
`WORD_MADE_OF` edges, so it reads back zero morphemes. -/
def storePunctOK (st : Store) : Bool :=
  st.nodes.all fun n =>
    !(decide (n.kind = .word)) ||
      !((getB n.props "is_punctuation").getD false) ||
      (readMorphemes st n.id).isEmpty

/-- Orders as counted by the read contract: child order values per
parent strictly increase from 0 with no gaps. -/
def natsFrom : Nat → List Nat → Bool
  | _, [] => true
  | i, n :: r => (n == i) && natsFrom (i + 1) r

/-- Stored-shape invariant for ordering (what §4.2 materialization
writes): the ordered reads per parent yield order values 0, 1, 2, …. -/
def storeOrdersOK (st : Store) : Bool :=
  (st.nodes.all fun n =>
    !(decide (n.kind = .text)) ||
      natsFrom 0 ((readSections st n.id).map nodeOrder)) &&
  (st.nodes.all fun n =>
    !(decide (n.kind = .section)) ||
      natsFrom 0 ((readPhrases st n.id).map nodeOrder))

/-- A word-level unit with a punctuation item and a populated morpheme
container. -/
def xwPunct : XWord :=
  ⟨none, [⟨"punct", none, "."⟩], some [⟨none, none, [⟨"txt", none, "x"⟩]⟩]⟩

/-- What `xwPunct` parses to: a punctuation Word with no morphemes. -/
def punctWord : Word := ⟨none, ".", none, none, none, true, []⟩

/-! ## Theorems -/

/-! ## Round trip: parse after serialize -/

theorem orDefault_some (v : String) (b : Option String) :
    orDefault (some v) b = some v := rfl

theorem orDefault_none (b : Option String) : orDefault none b = b := rfl

/-- The emit-only-when-overriding rule composes with the parser's
fallback to recover the resolved language exactly, provided inheritance
was resolved eagerly. -/
theorem langAttr_roundtrip (inherited lang : Option String)
    (h : langResolved inherited lang = true) :
    orDefault (langAttr inherited lang) inherited = lang := by
  unfold langAttr
  by_cases hb : (lang == inherited) = true
  · simp only [hb, if_true, orDefault_none]
    exact (beq_iff_eq.mp hb).symm
  · simp only [hb, if_false]
    cases lang with
    | some v => rfl
    | none =>
      cases inherited with
      | none => simp at hb
      | some w => simp [langResolved] at h

theorem parseMorphType_toAttr (tgt : String) (t : MorphType) :
    parseMorphType tgt (some t.toAttr) = (t, []) := by
  cases t <;> rfl

theorem parse_serialize_morpheme (wlang : Option String) (tgt : String)
    (m : Morpheme) (h : validMorpheme wlang m = true) :
    parseMorpheme wlang tgt (serializeMorpheme wlang m) =
      Except.ok (m, []) := by
  obtain ⟨mid, mt, sf, cf, gl, ms, lang⟩ := m
  have hl := langAttr_roundtrip wlang lang h
  cases cf <;> cases gl <;> cases ms <;>
    simp_all [parseMorpheme, serializeMorpheme, findItem, optItem,
      parseMorphType_toAttr]

theorem parse_serialize_morphemes (wlang : Option String) (base : String)
    (ms : List Morpheme) (h : ms.all (validMorpheme wlang) = true) :
    ∀ i, parseMorphemes wlang base i (ms.map (serializeMorpheme wlang)) =
      Except.ok (ms, []) := by
  induction ms with
  | nil => intro i; rfl
  | cons m rest ih =>
    intro i
    simp only [List.all_cons, Bool.and_eq_true] at h
    simp only [List.map_cons, parseMorphemes,
      parse_serialize_morpheme wlang _ m h.1, ih h.2 (i + 1)]
    rfl

theorem parse_serialize_word (plang : Option String) (tgt : String)
    (w : Word) (h : validWord plang w = true) :
    parseWord plang tgt (serializeWord plang w) = Except.ok (w, []) := by
  obtain ⟨wid, sf, gl, pos, lang, punct, morphs⟩ := w
  simp only [validWord, Bool.and_eq_true] at h
  have hl := langAttr_roundtrip plang lang h.1.1
  cases punct with
  | true =>
    have hm : morphs = [] := by
      have := h.1.2
      simpa [List.isEmpty_iff] using this
    subst hm
    cases gl <;> cases pos <;>
      simp_all [parseWord, serializeWord, findItem, optItem]
  | false =>
    cases hms : morphs with
    | nil =>
      cases gl <;> cases pos <;>
        (simp_all [parseWord, serializeWord, findItem, optItem]; rfl)
    | cons m rest =>
      have hall : morphs.all (validMorpheme lang) = true := h.2
      rw [← hms]
      have hparse := parse_serialize_morphemes lang tgt morphs hall 0
      cases gl <;> cases pos <;>
        (simp_all [parseWord, serializeWord, findItem, optItem,
          List.isEmpty_iff]; rfl)

theorem parse_serialize_words (plang : Option String) (base : String)
    (ws : List Word) (h : ws.all (validWord plang) = true) :
    ∀ i, parseWords plang base i (ws.map (serializeWord plang)) =
      Except.ok (ws, []) := by
  induction ws with
  | nil => intro i; rfl
  | cons w rest ih =>
    intro i
    simp only [List.all_cons, Bool.and_eq_true] at h
    simp only [List.map_cons, parseWords,
      parse_serialize_word plang _ w h.1, ih h.2 (i + 1)]
    rfl

theorem parse_serialize_phrase (dlang : Option String) (tgt : String)
    (p : Phrase) (h : validPhrase dlang p = true) :
    parsePhrase dlang tgt p.order (serializePhrase dlang p) =
      Except.ok (p, []) := by
  obtain ⟨pid, i, seg, st, lang, ws⟩ := p
  simp only [validPhrase, Bool.and_eq_true, Bool.or_eq_true] at h
  have hl := langAttr_roundtrip dlang lang h.1.1
  have hwords := parse_serialize_words lang tgt ws h.2 0
  cases hws : ws with
  | nil =>
    cases st with
    | none =>
      have hld : lang = dlang := by
        rcases h.1.2 with hb | hs
        · exact beq_iff_eq.mp hb
        · simp at hs
      cases seg <;>
        simp_all [parsePhrase, serializePhrase, findItem, optItem, orDefault]
    | some t =>
      cases seg <;>
        simp_all [parsePhrase, serializePhrase, findItem, optItem, orDefault]
  | cons w rest =>
    rw [← hws]
    cases st with
    | none =>
      have hld : lang = dlang := by
        rcases h.1.2 with hb | hs
        · exact beq_iff_eq.mp hb
        · simp at hs
      cases seg <;>
        (simp_all [parsePhrase, serializePhrase, findItem, optItem,
          orDefault, List.isEmpty_iff]; rfl)
    | some t =>
      cases seg <;>
        (simp_all [parsePhrase, serializePhrase, findItem, optItem,
          orDefault, List.isEmpty_iff]; rfl)

theorem parse_serialize_phrases (dlang : Option String) (base : String)
    (ps : List Phrase) :
    ∀ i, phrasesOrdered i ps = true → ps.all (validPhrase dlang) = true →
      parsePhrases dlang base i (ps.map (serializePhrase dlang)) =
        Except.ok (ps, []) := by
  induction ps with
  | nil => intro i _ _; rfl
  | cons p rest ih =>
    intro i ho hv
    simp only [phrasesOrdered, Bool.and_eq_true] at ho
    simp only [List.all_cons, Bool.and_eq_true] at hv
    have hi : p.order = i := beq_iff_eq.mp ho.1
    have hp := parse_serialize_phrase dlang (base ++ "/phrase-" ++ toString i)
      p hv.1
    rw [hi] at hp
    simp only [List.map_cons, parsePhrases, hp, ih (i + 1) ho.2 hv.2]
    rfl

theorem parse_serialize_section (dlang : Option String) (tgt : String)
    (s : Section) (h : validSection dlang s = true) :
    parseSection dlang tgt s.order (serializeSection dlang s) =
      Except.ok (s, []) := by
  obtain ⟨sid, i, ps⟩ := s
  simp only [validSection, Bool.and_eq_true] at h
  have hps := parse_serialize_phrases dlang tgt ps 0 h.1 h.2
  cases hp : ps with
  | nil => simp_all [parseSection, serializeSection]
  | cons p rest =>
    rw [← hp]
    simp_all [parseSection, serializeSection, List.isEmpty_iff]
    rfl

theorem parse_serialize_sections (dlang : Option String) (base : String)
    (ss : List Section) :
    ∀ i, sectionsOrdered i ss = true → ss.all (validSection dlang) = true →
      parseSections dlang base i (ss.map (serializeSection dlang)) =
        Except.ok (ss, []) := by
  induction ss with
  | nil => intro i _ _; rfl
  | cons s rest ih =>
    intro i ho hv
    simp only [sectionsOrdered, Bool.and_eq_true] at ho
    simp only [List.all_cons, Bool.and_eq_true] at hv
    have hi : s.order = i := beq_iff_eq.mp ho.1
    have hs := parse_serialize_section dlang
      (base ++ "/paragraph-" ++ toString i) s hv.1
    rw [hi] at hs
    simp only [List.map_cons, parseSections, hs, ih (i + 1) ho.2 hv.2]
    rfl

theorem parse_serialize_document (d : Document)
    (h : validDocument d = true) :
    parseInterlinearText (serializeInterlinearText d) =
      Except.ok (d, []) := by
  obtain ⟨did, ttl, src, cmt, dflt, ss⟩ := d
  simp only [validDocument, Bool.and_eq_true] at h
  have hsecs := parse_serialize_sections dflt "interlinear-text" ss 0
    h.1.2 h.2
  cases hss : ss with
  | nil =>
    cases ttl with
    | none =>
      have hd : dflt = none := by
        cases dflt with
        | none => rfl
        | some l => simp [Option.isSome] at h
      subst hd
      cases src <;> cases cmt <;>
        simp_all [parseInterlinearText, serializeInterlinearText,
          findItem, optItem]
    | some t =>
      cases dflt <;> cases src <;> cases cmt <;>
        simp_all [parseInterlinearText, serializeInterlinearText,
          findItem, optItem]
  | cons s rest =>
    rw [← hss]
    cases ttl with
    | none =>
      have hd : dflt = none := by
        cases dflt with
        | none => rfl
        | some l => simp [Option.isSome] at h
      subst hd
      cases src <;> cases cmt <;>
        (simp_all [parseInterlinearText, serializeInterlinearText,
          findItem, optItem, List.isEmpty_iff]; rfl)
    | some t =>
      cases dflt <;> cases src <;> cases cmt <;>
        (simp_all [parseInterlinearText, serializeInterlinearText,
          findItem, optItem, List.isEmpty_iff]; rfl)

/-- C1: for every valid Document Tree `T`, parsing the output of the
Format Serializer applied to `T` yields a tree structurally equal to
`T` (identifiers are `Option`-valued in the tree, so entities the
source left without explicit ids round-trip as `none`; the synthesized
identifiers exist only on the materialization side), and it does so
with no warnings. -/
theorem C1_parse_serialize_roundtrip (d : Document)
    (h : validDocument d = true) :
    parseInterlinearText (serializeInterlinearText d) =
      Except.ok (d, []) :=
  parse_serialize_document d h

/-- Witness for C1 at a concrete valid document. -/
theorem C1_parse_serialize_roundtrip_witness :
    validDocument sampleDoc = true ∧
      parseInterlinearText (serializeInterlinearText sampleDoc) =
        Except.ok (sampleDoc, []) :=
  ⟨by decide, C1_parse_serialize_roundtrip sampleDoc (by decide)⟩

/-! ## Parser invariants -/

/-- Inversion for a successful `Except` bind. -/
theorem except_bind_ok {ε α β : Type} {e : Except ε α}
    {f : α → Except ε β} {b : β} (h : (e >>= f) = .ok b) :
    ∃ a, e = .ok a ∧ f a = .ok b := by
  cases e with
  | error err => exact absurd h (by simp [Bind.bind, Except.bind])
  | ok a => exact ⟨a, rfl, by simpa [Bind.bind, Except.bind] using h⟩

theorem parseWord_punctOK (plang : Option String) (tgt : String)
    (xw : XWord) (w : Word) (ws : List ParseWarning)
    (h : parseWord plang tgt xw = .ok (w, ws)) : wordPunctOK w = true := by
  unfold parseWord at h
  split at h
  · simp only [Except.ok.injEq, Prod.mk.injEq] at h
    rw [← h.1]
    rfl
  · split at h
    · exact absurd h (by simp)
    · split at h
      · simp only [Bind.bind, Except.bind, Except.ok.injEq,
          Prod.mk.injEq] at h
        rw [← h.1]
        rfl
      · obtain ⟨msw, _, h2⟩ := except_bind_ok h
        simp only [Except.ok.injEq, Prod.mk.injEq] at h2
        rw [← h2.1]
        rfl

theorem parseWords_punctOK (plang : Option String) (base : String) :
    ∀ i xws ws warns, parseWords plang base i xws = .ok (ws, warns) →
      ws.all wordPunctOK = true := by
  intro i xws
  induction xws generalizing i with
  | nil =>
    intro ws warns h
    simp only [parseWords, Except.ok.injEq, Prod.mk.injEq] at h
    rw [← h.1]
    rfl
  | cons xw rest ih =>
    intro ws warns h
    simp only [parseWords] at h
    obtain ⟨ww, hw, h2⟩ := except_bind_ok h
    obtain ⟨wsw, hws, h3⟩ := except_bind_ok h2
    simp only [Except.ok.injEq, Prod.mk.injEq] at h3
    rw [← h3.1]
    simp only [List.all_cons, Bool.and_eq_true]
    exact ⟨parseWord_punctOK plang _ xw ww.1 ww.2 (by rw [hw]),
      ih (i + 1) wsw.1 wsw.2 (by rw [hws])⟩

theorem parsePhrase_punctOK (dlang : Option String) (tgt : String)
    (i : Nat) (xp : XPhrase) (p : Phrase) (ws : List ParseWarning)
    (h : parsePhrase dlang tgt i xp = .ok (p, ws)) :
    p.words.all wordPunctOK = true := by
  unfold parsePhrase at h
  split at h
  · simp only [Except.ok.injEq, Prod.mk.injEq] at h
    rw [← h.1]
    rfl
  · obtain ⟨wsw, hws, h2⟩ := except_bind_ok h
    simp only [Except.ok.injEq, Prod.mk.injEq] at h2
    rw [← h2.1]
    exact parseWords_punctOK _ tgt 0 _ wsw.1 wsw.2 (by rw [hws])

theorem parsePhrases_punctOK (dlang : Option String) (base : String) :
    ∀ i xps ps warns, parsePhrases dlang base i xps = .ok (ps, warns) →
      (ps.all fun p => p.words.all wordPunctOK) = true := by
  intro i xps
  induction xps generalizing i with
  | nil =>
    intro ps warns h
    simp only [parsePhrases, Except.ok.injEq, Prod.mk.injEq] at h
    rw [← h.1]
    rfl
  | cons xp rest ih =>
    intro ps warns h
    simp only [parsePhrases] at h
    obtain ⟨pw, hp, h2⟩ := except_bind_ok h
    obtain ⟨psw, hps, h3⟩ := except_bind_ok h2
    simp only [Except.ok.injEq, Prod.mk.injEq] at h3
    rw [← h3.1]
    simp only [List.all_cons, Bool.and_eq_true]
    exact ⟨parsePhrase_punctOK dlang _ i xp pw.1 pw.2 (by rw [hp]),
      ih (i + 1) psw.1 psw.2 (by rw [hps])⟩

theorem parseSection_punctOK (dlang : Option String) (tgt : String)
    (i : Nat) (xpar : XParagraph) (s : Section) (ws : List ParseWarning)
    (h : parseSection dlang tgt i xpar = .ok (s, ws)) :
    (s.phrases.all fun p => p.words.all wordPunctOK) = true := by
  unfold parseSection at h
  split at h
  · simp only [Except.ok.injEq, Prod.mk.injEq] at h
    rw [← h.1]
    rfl
  · obtain ⟨psw, hps, h2⟩ := except_bind_ok h
    simp only [Except.ok.injEq, Prod.mk.injEq] at h2
    rw [← h2.1]
    exact parsePhrases_punctOK dlang tgt 0 _ psw.1 psw.2 (by rw [hps])

theorem parseSections_punctOK (dlang : Option String) (base : String) :
    ∀ i xpars ss warns, parseSections dlang base i xpars = .ok (ss, warns) →
      (ss.all fun s => s.phrases.all fun p =>
        p.words.all wordPunctOK) = true := by
  intro i xpars
  induction xpars generalizing i with
  | nil =>
    intro ss warns h
    simp only [parseSections, Except.ok.injEq, Prod.mk.injEq] at h
    rw [← h.1]
    rfl
  | cons xpar rest ih =>
    intro ss warns h
    simp only [parseSections] at h
    obtain ⟨sw, hs, h2⟩ := except_bind_ok h
    obtain ⟨ssw, hss, h3⟩ := except_bind_ok h2
    simp only [Except.ok.injEq, Prod.mk.injEq] at h3
    rw [← h3.1]
    simp only [List.all_cons, Bool.and_eq_true]
    exact ⟨parseSection_punctOK dlang _ i xpar sw.1 sw.2 (by rw [hs]),
      ih (i + 1) ssw.1 ssw.2 (by rw [hss])⟩

theorem parse_punctOK (x : XText) (d : Document) (ws : List ParseWarning)
    (h : parseInterlinearText x = .ok (d, ws)) : docPunctOK d = true := by
  unfold parseInterlinearText at h
  split at h
  · simp only [Except.ok.injEq, Prod.mk.injEq] at h
    rw [docPunctOK, ← h.1]
    rfl
  · obtain ⟨ssw, hss, h2⟩ := except_bind_ok h
    simp only [Except.ok.injEq, Prod.mk.injEq] at h2
    rw [docPunctOK, ← h2.1]
    exact parseSections_punctOK _ _ 0 _ ssw.1 ssw.2 (by rw [hss])

theorem parsePhrase_order (dlang : Option String) (tgt : String)
    (i : Nat) (xp : XPhrase) (p : Phrase) (ws : List ParseWarning)
    (h : parsePhrase dlang tgt i xp = .ok (p, ws)) : p.order = i := by
  unfold parsePhrase at h
  split at h
  · simp only [Except.ok.injEq, Prod.mk.injEq] at h
    rw [← h.1]
  · obtain ⟨wsw, _, h2⟩ := except_bind_ok h
    simp only [Except.ok.injEq, Prod.mk.injEq] at h2
    rw [← h2.1]

theorem parsePhrases_ordered (dlang : Option String) (base : String) :
    ∀ i xps ps warns, parsePhrases dlang base i xps = .ok (ps, warns) →
      phrasesOrdered i ps = true := by
  intro i xps
  induction xps generalizing i with
  | nil =>
    intro ps warns h
    simp only [parsePhrases, Except.ok.injEq, Prod.mk.injEq] at h
    rw [← h.1]
    rfl
  | cons xp rest ih =>
    intro ps warns h
    simp only [parsePhrases] at h
    obtain ⟨pw, hp, h2⟩ := except_bind_ok h
    obtain ⟨psw, hps, h3⟩ := except_bind_ok h2
    simp only [Except.ok.injEq, Prod.mk.injEq] at h3
    rw [← h3.1]
    simp only [phrasesOrdered, Bool.and_eq_true]
    refine ⟨?_, ih (i + 1) psw.1 psw.2 (by rw [hps])⟩
    exact beq_iff_eq.mpr (parsePhrase_order dlang _ i xp pw.1 pw.2
      (by rw [hp]))

theorem parseSection_order (dlang : Option String) (tgt : String)
    (i : Nat) (xpar : XParagraph) (s : Section) (ws : List ParseWarning)
    (h : parseSection dlang tgt i xpar = .ok (s, ws)) : s.order = i := by
  unfold parseSection at h
  split at h
  · simp only [Except.ok.injEq, Prod.mk.injEq] at h
    rw [← h.1]
  · obtain ⟨psw, _, h2⟩ := except_bind_ok h
    simp only [Except.ok.injEq, Prod.mk.injEq] at h2
    rw [← h2.1]

theorem parseSection_phrasesOrdered (dlang : Option String) (tgt : String)
    (i : Nat) (xpar : XParagraph) (s : Section) (ws : List ParseWarning)
    (h : parseSection dlang tgt i xpar = .ok (s, ws)) :
    phrasesOrdered 0 s.phrases = true := by
  unfold parseSection at h
  split at h
  · simp only [Except.ok.injEq, Prod.mk.injEq] at h
    rw [← h.1]
    rfl
  · obtain ⟨psw, hps, h2⟩ := except_bind_ok h
    simp only [Except.ok.injEq, Prod.mk.injEq] at h2
    rw [← h2.1]
    exact parsePhrases_ordered dlang tgt 0 _ psw.1 psw.2 (by rw [hps])

theorem parseSections_ordered (dlang : Option String) (base : String) :
    ∀ i xpars ss warns, parseSections dlang base i xpars = .ok (ss, warns) →
      sectionsOrdered i ss = true ∧
        (ss.all fun s => phrasesOrdered 0 s.phrases) = true := by
  intro i xpars
  induction xpars generalizing i with
  | nil =>
    intro ss warns h
    simp only [parseSections, Except.ok.injEq, Prod.mk.injEq] at h
    rw [← h.1]
    exact ⟨rfl, rfl⟩
  | cons xpar rest ih =>
    intro ss warns h
    simp only [parseSections] at h
    obtain ⟨sw, hs, h2⟩ := except_bind_ok h
    obtain ⟨ssw, hss, h3⟩ := except_bind_ok h2
    simp only [Except.ok.injEq, Prod.mk.injEq] at h3
    rw [← h3.1]
    obtain ⟨ihord, ihph⟩ := ih (i + 1) ssw.1 ssw.2 (by rw [hss])
    refine ⟨?_, ?_⟩
    · simp only [sectionsOrdered, Bool.and_eq_true]
      exact ⟨beq_iff_eq.mpr (parseSection_order dlang _ i xpar sw.1 sw.2
        (by rw [hs])), ihord⟩
    · simp only [List.all_cons, Bool.and_eq_true]
      exact ⟨parseSection_phrasesOrdered dlang _ i xpar sw.1 sw.2
        (by rw [hs]), ihph⟩

theorem parse_ordersOK (x : XText) (d : Document) (ws : List ParseWarning)
    (h : parseInterlinearText x = .ok (d, ws)) : docOrdersOK d = true := by
  unfold parseInterlinearText at h
  split at h
  · simp only [Except.ok.injEq, Prod.mk.injEq] at h
    rw [docOrdersOK, ← h.1]
    rfl
  · obtain ⟨ssw, hss, h2⟩ := except_bind_ok h
    simp only [Except.ok.injEq, Prod.mk.injEq] at h2
    rw [docOrdersOK, ← h2.1]
    obtain ⟨h1, h2'⟩ := parseSections_ordered _ _ 0 _ ssw.1 ssw.2
      (by rw [hss])
    simp [h1, h2']

theorem phrasesOrdered_chain :
    ∀ i ps, phrasesOrdered i ps = true →
      List.Chain' (· < ·) (ps.map Phrase.order) ∧
        ∀ a ∈ (ps.map Phrase.order).head?, a = i := by
  intro i ps
  induction ps generalizing i with
  | nil => intro _; exact ⟨List.chain'_nil, by simp⟩
  | cons p rest ih =>
    intro h
    simp only [phrasesOrdered, Bool.and_eq_true] at h
    have hi : p.order = i := beq_iff_eq.mp h.1
    obtain ⟨hc, hh⟩ := ih (i + 1) h.2
    constructor
    · rw [List.map_cons, List.chain'_cons']
      refine ⟨fun b hb => ?_, hc⟩
      rw [hh b hb, hi]
      omega
    · simp [hi]

theorem sectionsOrdered_chain :
    ∀ i ss, sectionsOrdered i ss = true →
      List.Chain' (· < ·) (ss.map Section.order) ∧
        ∀ a ∈ (ss.map Section.order).head?, a = i := by
  intro i ss
  induction ss generalizing i with
  | nil => intro _; exact ⟨List.chain'_nil, by simp⟩
  | cons s rest ih =>
    intro h
    simp only [sectionsOrdered, Bool.and_eq_true] at h
    have hi : s.order = i := beq_iff_eq.mp h.1
    obtain ⟨hc, hh⟩ := ih (i + 1) h.2
    constructor
    · rw [List.map_cons, List.chain'_cons']
      refine ⟨fun b hb => ?_, hc⟩
      rw [hh b hb, hi]
      omega
    · simp [hi]

/-- `docOrdersOK` delivers the claim-level property at every parent. -/
theorem docOrdersOK_strict (d : Document) (h : docOrdersOK d = true) :
    StrictlyIncreasingFrom0 (d.sections.map Section.order) ∧
      ∀ s ∈ d.sections,
        StrictlyIncreasingFrom0 (s.phrases.map Phrase.order) := by
  simp only [docOrdersOK, Bool.and_eq_true, List.all_eq_true] at h
  constructor
  · obtain ⟨hc, hh⟩ := sectionsOrdered_chain 0 d.sections h.1
    exact ⟨hc, hh⟩
  · intro s hs
    obtain ⟨hc, hh⟩ := phrasesOrdered_chain 0 s.phrases (h.2 s hs)
    exact ⟨hc, hh⟩

/-! ## Unknown morpheme type handling -/

theorem ofAttr_none_of_unknown (s : String) (h : s ∉ morphTypeStrings) :
    MorphType.ofAttr? s = none := by
  simp only [morphTypeStrings, List.mem_cons, List.mem_singleton,
    not_or] at h
  obtain ⟨h1, h2, h3, h4, h5, h6⟩ := h
  simp [MorphType.ofAttr?, beq_iff_eq, h1, h2, h3, h4, h5, h6]

theorem parseMorphType_unknown (tgt : String) (s : String)
    (h : s ∉ morphTypeStrings) :
    parseMorphType tgt (some s) =
      (.stem, [⟨tgt, "unknown morpheme type " ++ s ++ " coerced to stem"⟩]) := by
  simp [parseMorphType, ofAttr_none_of_unknown s h]

/-- A morpheme unit whose `type` attribute is outside the enumerated
set still parses successfully: the type is coerced to `stem` and a
warning naming the affected entity is returned with the result. -/
theorem parseMorpheme_unknown_type (wlang : Option String) (tgt : String)
    (xm : XMorph) (s : String) (hty : xm.mtype = some s)
    (hbad : s ∉ morphTypeStrings) (txtit : XItem)
    (htxt : findItem "txt" xm.items = some txtit) :
    parseMorpheme wlang tgt xm =
      .ok ({ id := xm.guid
             mtype := .stem
             surface_form := txtit.text
             citation_form := (findItem "cf" xm.items).map (·.text)
             gloss := (findItem "gls" xm.items).map (·.text)
             msa := (findItem "msa" xm.items).map (·.text)
             language := orDefault txtit.lang wlang },
        [⟨tgt, "unknown morpheme type " ++ s ++ " coerced to stem"⟩]) := by
  unfold parseMorpheme
  rw [htxt, hty, parseMorphType_unknown tgt s hbad]

/-! ## Omission law -/

theorem findItem_eq_none (t : String) (items : List XItem)
    (h : hasItem t items = false) : findItem t items = none := by
  unfold hasItem at h
  unfold findItem
  rw [List.find?_eq_none]
  intro it hit
  rw [List.any_eq_false] at h
  simpa using h it hit

theorem serializeMorpheme_omits (wlang : Option String) (m : Morpheme) :
    (m.citation_form = none →
      hasItem "cf" (serializeMorpheme wlang m).items = false) ∧
    (m.gloss = none →
      hasItem "gls" (serializeMorpheme wlang m).items = false) ∧
    (m.msa = none →
      hasItem "msa" (serializeMorpheme wlang m).items = false) := by
  obtain ⟨mid, mt, sf, cf, gl, ms, lang⟩ := m
  cases cf <;> cases gl <;> cases ms <;>
    refine ⟨fun h => ?_, fun h => ?_, fun h => ?_⟩ <;>
      first
        | rfl
        | exact absurd h (by simp)

theorem serializeWord_omits (plang : Option String) (w : Word) :
    (w.gloss = none →
      hasItem "gls" (serializeWord plang w).items = false) ∧
    (w.pos = none →
      hasItem "pos" (serializeWord plang w).items = false) := by
  obtain ⟨wid, sf, gl, pos, lang, punct, morphs⟩ := w
  cases punct <;> cases gl <;> cases pos <;>
    refine ⟨fun h => ?_, fun h => ?_⟩ <;>
      first
        | rfl
        | exact absurd h (by simp)

theorem serializePhrase_omits (dlang : Option String) (p : Phrase) :
    (p.segnum = none →
      hasItem "segnum" (serializePhrase dlang p).items = false) ∧
    (p.surface_text = none →
      hasItem "txt" (serializePhrase dlang p).items = false) := by
  obtain ⟨pid, i, seg, st, lang, ws⟩ := p
  cases seg <;> cases st <;>
    refine ⟨fun h => ?_, fun h => ?_⟩ <;>
      first
        | rfl
        | exact absurd h (by simp)

theorem serializeDocument_omits (d : Document) :
    (d.title = none →
      hasItem "title" (serializeInterlinearText d).items = false) ∧
    (d.source = none →
      hasItem "source" (serializeInterlinearText d).items = false) ∧
    (d.comment = none →
      hasItem "comment" (serializeInterlinearText d).items = false) := by
  obtain ⟨did, ttl, src, cmt, dflt, ss⟩ := d
  cases ttl <;> cases src <;> cases cmt <;>
    refine ⟨fun h => ?_, fun h => ?_, fun h => ?_⟩ <;>
      first
        | rfl
        | exact absurd h (by simp)

theorem parseMorpheme_omission (wlang : Option String) (tgt : String)
    (xm : XMorph) (m : Morpheme) (ws : List ParseWarning)
    (h : parseMorpheme wlang tgt xm = .ok (m, ws)) :
    (hasItem "cf" xm.items = false → m.citation_form = none) ∧
    (hasItem "gls" xm.items = false → m.gloss = none) ∧
    (hasItem "msa" xm.items = false → m.msa = none) := by
  unfold parseMorpheme at h
  split at h
  · exact absurd h (by simp)
  · simp only [Except.ok.injEq, Prod.mk.injEq] at h
    rw [← h.1]
    exact ⟨fun hn => by simp [findItem_eq_none _ _ hn],
      fun hn => by simp [findItem_eq_none _ _ hn],
      fun hn => by simp [findItem_eq_none _ _ hn]⟩

theorem parseWord_omission (plang : Option String) (tgt : String)
    (xw : XWord) (w : Word) (ws : List ParseWarning)
    (h : parseWord plang tgt xw = .ok (w, ws)) :
    (hasItem "gls" xw.items = false → w.gloss = none) ∧
    (hasItem "pos" xw.items = false → w.pos = none) := by
  unfold parseWord at h
  split at h
  · simp only [Except.ok.injEq, Prod.mk.injEq] at h
    rw [← h.1]
    exact ⟨fun hn => by simp [findItem_eq_none _ _ hn],
      fun hn => by simp [findItem_eq_none _ _ hn]⟩
  · split at h
    · exact absurd h (by simp)
    · split at h <;>
      · obtain ⟨msw, _, h2⟩ := except_bind_ok h
        simp only [Except.ok.injEq, Prod.mk.injEq] at h2
        rw [← h2.1]
        exact ⟨fun hn => by simp [findItem_eq_none _ _ hn],
          fun hn => by simp [findItem_eq_none _ _ hn]⟩

theorem parsePhrase_omission (dlang : Option String) (tgt : String)
    (i : Nat) (xp : XPhrase) (p : Phrase) (ws : List ParseWarning)
    (h : parsePhrase dlang tgt i xp = .ok (p, ws)) :
    (hasItem "segnum" xp.items = false → p.segnum = none) ∧
    (hasItem "txt" xp.items = false → p.surface_text = none) := by
  unfold parsePhrase at h
  split at h <;>
  · first
      | (simp only [Except.ok.injEq, Prod.mk.injEq] at h
         rw [← h.1]
         exact ⟨fun hn => by simp [findItem_eq_none _ _ hn],
           fun hn => by simp [findItem_eq_none _ _ hn]⟩)
      | (obtain ⟨wsw, _, h2⟩ := except_bind_ok h
         simp only [Except.ok.injEq, Prod.mk.injEq] at h2
         rw [← h2.1]
         exact ⟨fun hn => by simp [findItem_eq_none _ _ hn],
           fun hn => by simp [findItem_eq_none _ _ hn]⟩)

theorem parseDocument_omission (x : XText) (d : Document)
    (ws : List ParseWarning) (h : parseInterlinearText x = .ok (d, ws)) :
    (hasItem "title" x.items = false → d.title = none) ∧
    (hasItem "source" x.items = false → d.source = none) ∧
    (hasItem "comment" x.items = false → d.comment = none) := by
  unfold parseInterlinearText at h
  split at h <;>
  · first
      | (simp only [Except.ok.injEq, Prod.mk.injEq] at h
         rw [← h.1]
         exact ⟨fun hn => by simp [findItem_eq_none _ _ hn],
           fun hn => by simp [findItem_eq_none _ _ hn],
           fun hn => by simp [findItem_eq_none _ _ hn]⟩)
      | (obtain ⟨ssw, _, h2⟩ := except_bind_ok h
         simp only [Except.ok.injEq, Prod.mk.injEq] at h2
         rw [← h2.1]
         exact ⟨fun hn => by simp [findItem_eq_none _ _ hn],
           fun hn => by simp [findItem_eq_none _ _ hn],
           fun hn => by simp [findItem_eq_none _ _ hn]⟩)

/-- C3: the omission law.  Serializing a tree with an absent optional
field never emits that field's item tag, at every level of the tree;
conversely a successful parse of input lacking a tag yields the
corresponding attribute as absent (`none`), never as an empty string. -/
theorem C3_omission_law :
    (∀ (wlang : Option String) (m : Morpheme),
      (m.citation_form = none →
        hasItem "cf" (serializeMorpheme wlang m).items = false) ∧
      (m.gloss = none →
        hasItem "gls" (serializeMorpheme wlang m).items = false) ∧
      (m.msa = none →
        hasItem "msa" (serializeMorpheme wlang m).items = false)) ∧
    (∀ (plang : Option String) (w : Word),
      (w.gloss = none →
        hasItem "gls" (serializeWord plang w).items = false) ∧
      (w.pos = none →
        hasItem "pos" (serializeWord plang w).items = false)) ∧
    (∀ (dlang : Option String) (p : Phrase),
      (p.segnum = none →
        hasItem "segnum" (serializePhrase dlang p).items = false) ∧
      (p.surface_text = none →
        hasItem "txt" (serializePhrase dlang p).items = false)) ∧
    (∀ d : Document,
      (d.title = none →
        hasItem "title" (serializeInterlinearText d).items = false) ∧
      (d.source = none →
        hasItem "source" (serializeInterlinearText d).items = false) ∧
      (d.comment = none →
        hasItem "comment" (serializeInterlinearText d).items = false)) ∧
    (∀ (wlang : Option String) (tgt : String) (xm : XMorph) (m : Morpheme)
        (ws : List ParseWarning),
      parseMorpheme wlang tgt xm = .ok (m, ws) →
      (hasItem "cf" xm.items = false → m.citation_form = none) ∧
      (hasItem "gls" xm.items = false → m.gloss = none) ∧
      (hasItem "msa" xm.items = false → m.msa = none)) ∧
    (∀ (plang : Option String) (tgt : String) (xw : XWord) (w : Word)
        (ws : List ParseWarning),
      parseWord plang tgt xw = .ok (w, ws) →
      (hasItem "gls" xw.items = false → w.gloss = none) ∧
      (hasItem "pos" xw.items = false → w.pos = none)) ∧
    (∀ (dlang : Option String) (tgt : String) (i : Nat) (xp : XPhrase)
        (p : Phrase) (ws : List ParseWarning),
      parsePhrase dlang tgt i xp = .ok (p, ws) →
      (hasItem "segnum" xp.items = false → p.segnum = none) ∧
      (hasItem "txt" xp.items = false → p.surface_text = none)) ∧
    (∀ (x : XText) (d : Document) (ws : List ParseWarning),
      parseInterlinearText x = .ok (d, ws) →
      (hasItem "title" x.items = false → d.title = none) ∧
      (hasItem "source" x.items = false → d.source = none) ∧
      (hasItem "comment" x.items = false → d.comment = none)) :=
  ⟨serializeMorpheme_omits, serializeWord_omits, serializePhrase_omits,
    serializeDocument_omits, parseMorpheme_omission, parseWord_omission,
    parsePhrase_omission, parseDocument_omission⟩

/-- Witness for C3, exercising every component of the omission law at
concrete inputs. -/
theorem C3_omission_law_witness :
    hasItem "cf" (serializeMorpheme none bareMorpheme).items = false ∧
    hasItem "gls" (serializeWord none bareWord).items = false ∧
    hasItem "segnum" (serializePhrase none barePhrase).items = false ∧
    hasItem "title" (serializeInterlinearText bareDoc).items = false ∧
    bareMorpheme.citation_form = none ∧
    bareWord.gloss = none ∧
    barePhrase.segnum = none ∧
    bareDoc.title = none :=
  ⟨(C3_omission_law.1 none bareMorpheme).1 rfl,
   (C3_omission_law.2.1 none bareWord).1 rfl,
   (C3_omission_law.2.2.1 none barePhrase).1 rfl,
   (C3_omission_law.2.2.2.1 bareDoc).1 rfl,
   (C3_omission_law.2.2.2.2.1 none "m" bareXMorph bareMorpheme []
      (by decide)).1 rfl,
   (C3_omission_law.2.2.2.2.2.1 none "w" bareXWord bareWord []
      (by decide)).1 rfl,
   (C3_omission_law.2.2.2.2.2.2.1 none "p" 0 bareXPhrase barePhrase []
      (by decide)).1 rfl,
   (C3_omission_law.2.2.2.2.2.2.2 bareX bareDoc [] (by decide)).1 rfl⟩

/-- C6: a morpheme `type` attribute outside the enumerated set never
fails the parse: the type is coerced to the default `stem`, a warning
naming the affected entity is recorded, and parsing continues — at
document level the warning is returned alongside the success result. -/
theorem C6_unknown_type_recovered :
    (∀ (wlang : Option String) (tgt : String) (xm : XMorph) (s : String),
      xm.mtype = some s → s ∉ morphTypeStrings →
      ∀ txtit, findItem "txt" xm.items = some txtit →
        parseMorpheme wlang tgt xm =
          .ok ({ id := xm.guid
                 mtype := .stem
                 surface_form := txtit.text
                 citation_form := (findItem "cf" xm.items).map (·.text)
                 gloss := (findItem "gls" xm.items).map (·.text)
                 msa := (findItem "msa" xm.items).map (·.text)
                 language := orDefault txtit.lang wlang },
            [⟨tgt, "unknown morpheme type " ++ s ++
              " coerced to stem"⟩])) ∧
    parseInterlinearText badTypeX =
      .ok (badTypeDoc,
        [⟨"interlinear-text/paragraph-0/phrase-0/word-0/morph-0",
          "unknown morpheme type glottal coerced to stem"⟩]) :=
  ⟨fun wlang tgt xm s h1 h2 txtit h3 =>
    parseMorpheme_unknown_type wlang tgt xm s h1 h2 txtit h3, by decide⟩

/-- Witness for C6 at a concrete morpheme element. -/
theorem C6_unknown_type_recovered_witness :
    parseMorpheme none "m" badTypeXMorph =
      .ok ({ id := none
             mtype := .stem
             surface_form := "ka"
             citation_form := none
             gloss := none
             msa := none
             language := none },
        [⟨"m", "unknown morpheme type glottal coerced to stem"⟩]) :=
  C6_unknown_type_recovered.1 none "m" badTypeXMorph "glottal" rfl
    (by decide) ⟨"txt", none, "ka"⟩ rfl

/-- C9: on the Scenario A document the Statistics Aggregator reports
one word, two morphemes, and one word with morphemes. -/
theorem C9_scenarioA_statistics :
    (computeStatistics scenarioADoc).total_words = 1 ∧
    (computeStatistics scenarioADoc).total_morphemes = 2 ∧
    (computeStatistics scenarioADoc).words_with_morphemes = 1 := by
  refine ⟨rfl, rfl, rfl⟩

theorem addNodes_edges (ns : List GNode) :
    ∀ g, (addNodes g ns).edges = g.edges := by
  induction ns with
  | nil => intro g; rfl
  | cons n rest ih =>
    intro g
    unfold addNodes
    by_cases hg : g.hasNode n.id = true
    · simp [hg, ih]
    · simp only [Bool.not_eq_true] at hg
      simp [hg, ih]

theorem addEdges_nodes (es : List GEdge) :
    ∀ g, (addEdges g es).nodes = g.nodes := by
  induction es with
  | nil => intro g; rfl
  | cons e rest ih =>
    intro g
    unfold addEdges
    by_cases hg : (g.hasNode e.source && g.hasNode e.target) = true
    · simp [hg, ih]
    · simp only [Bool.not_eq_true] at hg
      simp [hg, ih]

/-- The edge loop appends exactly the input edges whose endpoints both
exist, in input order; the rest are skipped. -/
theorem addEdges_edges (es : List GEdge) :
    ∀ g, (addEdges g es).edges = g.edges ++
      (es.filter fun e =>
        g.hasNode e.source && g.hasNode e.target).map mkSigmaEdge := by
  induction es with
  | nil => intro g; simp [addEdges]
  | cons e rest ih =>
    intro g
    unfold addEdges
    by_cases hg : (g.hasNode e.source && g.hasNode e.target) = true
    · rw [if_pos hg, ih]
      simp only [List.filter_cons, hg, if_pos]
      simp only [List.map_cons, List.append_assoc, List.singleton_append]
      rfl
    · rw [if_neg hg, ih]
      simp only [Bool.not_eq_true] at hg
      simp [List.filter_cons, hg]

/-- C10: the visualization graph builder only ever produces edges whose
two endpoints exist as nodes — an input edge with a missing endpoint is
skipped, not added and not an error (the result's edge list is exactly
the endpoint-valid input edges, in order) — and an input with zero
nodes produces exactly the one placeholder node and no edges. -/
theorem C10_buildGraph_invariants (data : GraphData) :
    (∀ e ∈ (buildGraphFromData data).edges,
        (buildGraphFromData data).hasNode e.source = true ∧
        (buildGraphFromData data).hasNode e.target = true) ∧
    (data.nodes ≠ [] →
      (buildGraphFromData data).edges =
        (data.edges.filter fun e =>
          (buildGraphFromData data).hasNode e.source &&
          (buildGraphFromData data).hasNode e.target).map mkSigmaEdge) ∧
    (data.nodes = [] →
      (buildGraphFromData data).nodes = [emptyPlaceholderNode] ∧
      (buildGraphFromData data).edges = []) := by
  by_cases h0 : data.nodes.length > 0
  · have hb : buildGraphFromData data =
        addEdges (addNodes ⟨[], []⟩ data.nodes) data.edges := by
      unfold buildGraphFromData
      rw [if_pos h0]
    have hnodes : (buildGraphFromData data).nodes =
        (addNodes ⟨[], []⟩ data.nodes).nodes := by
      rw [hb, addEdges_nodes]
    have hhas : ∀ x, (buildGraphFromData data).hasNode x =
        (addNodes ⟨[], []⟩ data.nodes).hasNode x := by
      intro x
      unfold SigmaGraph.hasNode
      rw [hnodes]
    have hedges : (buildGraphFromData data).edges =
        (data.edges.filter fun e =>
          (addNodes ⟨[], []⟩ data.nodes).hasNode e.source &&
          (addNodes ⟨[], []⟩ data.nodes).hasNode e.target).map
            mkSigmaEdge := by
      rw [hb, addEdges_edges, addNodes_edges]
      rfl
    refine ⟨?_, ?_, ?_⟩
    · intro e he
      rw [hedges] at he
      obtain ⟨e0, he0, hmk⟩ := List.mem_map.mp he
      have hp := List.of_mem_filter he0
      simp only [Bool.and_eq_true] at hp
      rw [← hmk]
      exact ⟨by rw [hhas]; exact hp.1, by rw [hhas]; exact hp.2⟩
    · intro _
      rw [hedges]
      congr 1
      exact (List.filter_congr fun x _ => by
        rw [hhas x.source, hhas x.target]).symm
    · intro hnil
      rw [hnil] at h0
      simp at h0
  · have hnil : data.nodes = [] := List.length_eq_zero.mp (by omega)
    have hb : buildGraphFromData data =
        { nodes := [emptyPlaceholderNode], edges := [] } := by
      unfold buildGraphFromData
      rw [if_neg h0]
    refine ⟨?_, ?_, ?_⟩
    · intro e he
      rw [hb] at he
      simp at he
    · intro hne
      exact absurd hnil hne
    · intro _
      rw [hb]
      exact ⟨rfl, rfl⟩

/-- Witness for C10: the dangling edge is skipped, the valid one kept;
the empty input produces exactly the placeholder node. -/
theorem C10_buildGraph_invariants_witness :
    ((buildGraphFromData graphDataEmpty).nodes = [emptyPlaceholderNode] ∧
      (buildGraphFromData graphDataEmpty).edges = []) ∧
    (buildGraphFromData graphData0).edges =
      [⟨"a", "b", "PHRASE_COMPOSED_OF"⟩] :=
  ⟨(C10_buildGraph_invariants graphDataEmpty).2.2 rfl,
   by
    have h := (C10_buildGraph_invariants graphData0).2.1 (by decide)
    rw [h]
    decide⟩

/-! ## Idempotence of batch application -/

theorem upsertBy_not_mem {α κ : Type} [DecidableEq κ] (key : α → κ)
    (l : List α) (u : α) (h : key u ∉ l.map key) :
    upsertBy key l u = l ++ [u] := by
  unfold upsertBy
  rw [if_neg]
  simp only [List.any_eq_true, decide_eq_true_eq, not_exists]
  intro v hv
  exact h (List.mem_map.mpr ⟨v, hv.1, hv.2⟩)

theorem map_replace_of_no_key {α κ : Type} [DecidableEq κ] (key : α → κ)
    (u : α) : ∀ l : List α, (∀ w ∈ l, key w ≠ key u) →
    (l.map fun v => if key v = key u then u else v) = l := by
  intro l
  induction l with
  | nil => intro _; rfl
  | cons v rest ih =>
    intro h
    simp only [List.map_cons]
    rw [if_neg (h v (List.mem_cons_self v rest)),
      ih fun w hw => h w (List.mem_cons_of_mem v hw)]

theorem upsertBy_mem_nodup {α κ : Type} [DecidableEq κ] (key : α → κ) :
    ∀ (l : List α) (u : α), (l.map key).Nodup → u ∈ l →
      upsertBy key l u = l := by
  intro l
  induction l with
  | nil => intro u _ hm; exact absurd hm (List.not_mem_nil u)
  | cons v rest ih =>
    intro u hn hm
    have hany : ((v :: rest).any fun w => decide (key w = key u)) = true :=
      List.any_eq_true.mpr ⟨u, hm, by simp⟩
    unfold upsertBy
    rw [if_pos hany]
    simp only [List.map_cons] at hn
    rw [List.nodup_cons] at hn
    rcases List.mem_cons.mp hm with hv | hrest
    · subst hv
      have hr : (rest.map fun v => if key v = key u then u else v) =
          rest :=
        map_replace_of_no_key key u rest fun w hw heq =>
          hn.1 (heq ▸ List.mem_map.mpr ⟨w, hw, rfl⟩)
      simp only [List.map_cons, hr]
      simp
    · have hne : key v ≠ key u := by
        intro heq
        exact hn.1 (heq ▸ List.mem_map.mpr ⟨u, hrest, rfl⟩)
      simp only [List.map_cons, if_neg hne]
      have := ih u hn.2 hrest
      unfold upsertBy at this
      rw [if_pos (List.any_eq_true.mpr ⟨u, hrest, by simp⟩)] at this
      rw [this]

theorem foldl_upsertBy_fresh {α κ : Type} [DecidableEq κ] (key : α → κ) :
    ∀ (l acc : List α), (l.map key).Nodup →
      (∀ v ∈ l, key v ∉ acc.map key) →
      l.foldl (upsertBy key) acc = acc ++ l := by
  intro l
  induction l with
  | nil => intro acc _ _; simp
  | cons u rest ih =>
    intro acc hn hf
    simp only [List.map_cons, List.nodup_cons] at hn
    have h1 : upsertBy key acc u = acc ++ [u] :=
      upsertBy_not_mem key acc u (hf u (List.mem_cons_self u rest))
    simp only [List.foldl_cons, h1]
    rw [ih (acc ++ [u]) hn.2]
    · simp
    · intro v hv
      simp only [List.map_append, List.map_cons, List.map_nil,
        List.mem_append, List.mem_singleton, not_or]
      refine ⟨hf v (List.mem_cons_of_mem u hv), fun heq => ?_⟩
      exact hn.1 (heq ▸ List.mem_map.mpr ⟨v, hv, rfl⟩)

theorem foldl_upsertBy_nil {α κ : Type} [DecidableEq κ] (key : α → κ)
    (l : List α) (hn : (l.map key).Nodup) :
    l.foldl (upsertBy key) [] = l := by
  have := foldl_upsertBy_fresh key l [] hn (by simp)
  simpa using this

theorem foldl_upsertBy_self_aux {α κ : Type} [DecidableEq κ]
    (key : α → κ) :
    ∀ (l₂ acc : List α), (acc.map key).Nodup → (∀ u ∈ l₂, u ∈ acc) →
      l₂.foldl (upsertBy key) acc = acc := by
  intro l₂
  induction l₂ with
  | nil => intro acc _ _; rfl
  | cons u rest ih =>
    intro acc hn hm
    simp only [List.foldl_cons,
      upsertBy_mem_nodup key acc u hn (hm u (List.mem_cons_self u rest))]
    exact ih acc hn fun v hv => hm v (List.mem_cons_of_mem u hv)

theorem foldl_upsertBy_self {α κ : Type} [DecidableEq κ] (key : α → κ)
    (l : List α) (hn : (l.map key).Nodup) :
    l.foldl (upsertBy key) l = l :=
  foldl_upsertBy_self_aux key l l hn fun _ h => h

/-- Applying a batch with distinct node ids and distinct edge keys to
an empty store materializes exactly the batch. -/
theorem applyBatch_empty (b : Batch)
    (hn : (b.nodes.map NodeUp.id).Nodup)
    (he : (b.edges.map edgeKey).Nodup) :
    applyBatch b emptyStore = ⟨b.nodes, b.edges⟩ := by
  unfold applyBatch emptyStore
  rw [foldl_upsertBy_nil NodeUp.id b.nodes hn,
    foldl_upsertBy_nil edgeKey b.edges he]

/-- C8: materializing the same Document Tree twice yields the same
stored subgraph as materializing it once — the upsert batch is
idempotent and duplicates no node or edge — and an identifier absent
from the source is synthesized as the deterministic pure function
`synthId` of the parent-id path, entity kind and child index.  The
distinctness hypotheses are the schema's unique-ID constraints
(`schema.cypher`, "Node Constraints (Unique IDs)"). -/
theorem C8_materialize_idempotent (d : Document)
    (hn : ((materializeDocument d).nodes.map NodeUp.id).Nodup)
    (he : ((materializeDocument d).edges.map edgeKey).Nodup) :
    applyBatch (materializeDocument d)
        (applyBatch (materializeDocument d) emptyStore) =
      applyBatch (materializeDocument d) emptyStore ∧
    (∀ (parent kind : String) (i : Nat),
      finalId none parent kind i = synthId parent kind i) := by
  refine ⟨?_, fun _ _ _ => rfl⟩
  rw [applyBatch_empty _ hn he]
  unfold applyBatch
  rw [foldl_upsertBy_self NodeUp.id _ hn, foldl_upsertBy_self edgeKey _ he]

/-- Witness for C8: the sample document's batch has distinct node ids
and edge keys, and re-applying its batch is a no-op. -/
theorem C8_materialize_idempotent_witness :
    applyBatch (materializeDocument sampleDoc)
        (applyBatch (materializeDocument sampleDoc) emptyStore) =
      applyBatch (materializeDocument sampleDoc) emptyStore :=
  (C8_materialize_idempotent sampleDoc (by decide) (by decide)).1

/-- C4: a Document identifier with no matching stored `Text` node makes
the export path fail with the distinct not-found error — it never
yields an (empty) document tree or an (empty) serialized document. -/
theorem C4_export_not_found (st : Store) (tid : String)
    (h : findNode st .text tid = none) :
    reconstructDocument st tid = .error .notFound ∧
      exportDocument st tid = .error .notFound := by
  have hr : reconstructDocument st tid = .error .notFound := by
    unfold reconstructDocument
    rw [h]
  exact ⟨hr, by unfold exportDocument; rw [hr]; rfl⟩

/-- Witness for C4: exporting an unknown id from the empty store. -/
theorem C4_export_not_found_witness :
    reconstructDocument emptyStore "missing" = .error .notFound ∧
      exportDocument emptyStore "missing" = .error .notFound :=
  C4_export_not_found emptyStore "missing" rfl

/-- C5: nearest-enclosing-scope language inheritance.  In Scenario D
(no explicit phrase or word language, document default `"en"`), the
parsed tree resolves the word language to `"en"` eagerly, the
reconstructed tree still carries `"en"` on the word, and the
serialized output omits the `lang` attribute at the word level because
the value is inherited rather than explicit. -/
theorem C5_language_inheritance :
    parseInterlinearText scenarioDX = .ok (scenarioDParsed, []) ∧
    reconstructDocument scenarioDStore "T5" =
      .ok scenarioDReconstructed ∧
    (docWords scenarioDReconstructed).map Word.language = [some "en"] ∧
    wordLangAttrs (serializeInterlinearText scenarioDReconstructed) =
      [none] :=
  ⟨by decide, by decide, by decide, by decide⟩

/-! ## Invariants of reconstruction

The reconstructor trusts the stored records; the invariants below hold
for any store whose records have the shape the Graph Materializer of
§4.2 writes (punctuation-flagged word nodes own no `WORD_MADE_OF`
edges; child order values per parent count up from 0), which is the
read contract of spec §4.3/§6. -/

theorem mem_insertByKey {α : Type} (y : Nat × α) :
    ∀ (l : List (Nat × α)) (x : Nat × α), x ∈ insertByKey y l →
      x = y ∨ x ∈ l := by
  intro l
  induction l with
  | nil =>
    intro x hx
    simp only [insertByKey, List.mem_singleton] at hx
    exact Or.inl hx
  | cons z rest ih =>
    intro x hx
    simp only [insertByKey] at hx
    by_cases hle : y.1 ≤ z.1
    · rw [if_pos hle] at hx
      rcases List.mem_cons.mp hx with h1 | h2
      · exact Or.inl h1
      · exact Or.inr h2
    · rw [if_neg hle] at hx
      rcases List.mem_cons.mp hx with h1 | h2
      · exact Or.inr (h1 ▸ List.mem_cons_self z rest)
      · rcases ih x h2 with h3 | h4
        · exact Or.inl h3
        · exact Or.inr (List.mem_cons_of_mem z h4)

theorem mem_sortByKey {α : Type} :
    ∀ (l : List (Nat × α)) (x : Nat × α), x ∈ sortByKey l → x ∈ l := by
  intro l
  induction l with
  | nil =>
    intro x hx
    exact absurd hx (List.not_mem_nil x)
  | cons y rest ih =>
    intro x hx
    simp only [sortByKey] at hx
    rcases mem_insertByKey y (sortByKey rest) x hx with h1 | h2
    · exact h1 ▸ List.mem_cons_self y rest
    · exact List.mem_cons_of_mem y (ih x h2)

theorem findNode_mem (st : Store) (k : NodeKind) (i : String)
    (n : NodeUp) (h : findNode st k i = some n) :
    n ∈ st.nodes ∧ n.kind = k ∧ n.id = i := by
  unfold findNode at h
  have hm := List.mem_of_find?_eq_some h
  have hp := List.find?_some h
  simp only [decide_eq_true_eq] at hp
  exact ⟨hm, hp.1, hp.2⟩

theorem readBy_mem (st : Store) (ek : EdgeKind) (nk : NodeKind)
    (key : EdgeUp → NodeUp → Nat) (pid : String) (n : NodeUp)
    (h : n ∈ readBy st ek nk key pid) :
    n ∈ st.nodes ∧ n.kind = nk := by
  unfold readBy at h
  obtain ⟨pr, hpr, hsnd⟩ := List.mem_map.mp h
  have hpr2 := mem_sortByKey _ pr hpr
  obtain ⟨e, _, hfm⟩ := List.mem_filterMap.mp hpr2
  cases hfind : findNode st nk e.toId with
  | none => rw [hfind] at hfm; exact absurd hfm (by simp)
  | some n0 =>
    rw [hfind] at hfm
    simp only [Option.map_some', Option.some.injEq] at hfm
    have hn0 : n0 = n := by rw [← hsnd, ← hfm]
    obtain ⟨hmem, hkind, _⟩ := findNode_mem st nk e.toId n0 hfind
    exact ⟨hn0 ▸ hmem, hn0 ▸ hkind⟩

theorem reconstructWord_punctOK (st : Store) (n : NodeUp)
    (hmem : n ∈ st.nodes) (hkind : n.kind = .word)
    (hst : storePunctOK st = true) (w : Word)
    (h : reconstructWord st n = .ok w) : wordPunctOK w = true := by
  unfold reconstructWord at h
  split at h
  · exact absurd h (by simp)
  · obtain ⟨ms, hms, h2⟩ := except_bind_ok h
    simp only [Except.ok.injEq] at h2
    rw [← h2]
    unfold wordPunctOK
    by_cases hflag : (getB n.props "is_punctuation").getD false = true
    · have hall : ∀ x ∈ st.nodes,
          (¬x.kind = NodeKind.word ∨
            (getB x.props "is_punctuation").getD false = false) ∨
          readMorphemes st x.id = [] := by
        simpa [storePunctOK] using hst
      have hnil : readMorphemes st n.id = [] := by
        rcases hall n hmem with (hq | hq) | hq
        · exact absurd hkind hq
        · rw [hflag] at hq
          cases hq
        · exact hq
      rw [hnil] at hms
      have hms0 : ms = [] := by
        simpa [reconstructMorphemes] using hms.symm
      simp [hms0]
    · simp only [Bool.not_eq_true] at hflag
      simp [hflag]

theorem reconstructWords_punctOK (st : Store)
    (hst : storePunctOK st = true) :
    ∀ (ns : List NodeUp) (ws : List Word),
      (∀ n ∈ ns, n ∈ st.nodes ∧ n.kind = .word) →
      reconstructWords st ns = .ok ws → ws.all wordPunctOK = true := by
  intro ns
  induction ns with
  | nil =>
    intro ws _ h
    simp only [reconstructWords, Except.ok.injEq] at h
    rw [← h]
    rfl
  | cons n rest ih =>
    intro ws hmem h
    simp only [reconstructWords] at h
    obtain ⟨w, hw, h2⟩ := except_bind_ok h
    obtain ⟨ws', hws, h3⟩ := except_bind_ok h2
    simp only [Except.ok.injEq] at h3
    rw [← h3]
    simp only [List.all_cons, Bool.and_eq_true]
    obtain ⟨hm1, hk1⟩ := hmem n (List.mem_cons_self n rest)
    exact ⟨reconstructWord_punctOK st n hm1 hk1 hst w hw,
      ih ws' (fun x hx => hmem x (List.mem_cons_of_mem n hx)) hws⟩

theorem reconstructPhrase_punctOK (st : Store)
    (hst : storePunctOK st = true) (n : NodeUp) (p : Phrase)
    (h : reconstructPhrase st n = .ok p) :
    p.words.all wordPunctOK = true := by
  unfold reconstructPhrase at h
  obtain ⟨ws, hws, h2⟩ := except_bind_ok h
  simp only [Except.ok.injEq] at h2
  rw [← h2]
  exact reconstructWords_punctOK st hst (readWords st n.id) ws
    (fun x hx => readBy_mem st _ _ _ _ x hx) hws

theorem reconstructPhrases_punctOK (st : Store)
    (hst : storePunctOK st = true) :
    ∀ (ns : List NodeUp) (ps : List Phrase),
      reconstructPhrases st ns = .ok ps →
      (ps.all fun p => p.words.all wordPunctOK) = true := by
  intro ns
  induction ns with
  | nil =>
    intro ps h
    simp only [reconstructPhrases, Except.ok.injEq] at h
    rw [← h]
    rfl
  | cons n rest ih =>
    intro ps h
    simp only [reconstructPhrases] at h
    obtain ⟨p, hp, h2⟩ := except_bind_ok h
    obtain ⟨ps', hps, h3⟩ := except_bind_ok h2
    simp only [Except.ok.injEq] at h3
    rw [← h3]
    simp only [List.all_cons, Bool.and_eq_true]
    exact ⟨reconstructPhrase_punctOK st hst n p hp, ih ps' hps⟩

theorem reconstructSections_punctOK (st : Store)
    (hst : storePunctOK st = true) :
    ∀ (ns : List NodeUp) (ss : List Section),
      reconstructSections st ns = .ok ss →
      (ss.all fun s => s.phrases.all fun p =>
        p.words.all wordPunctOK) = true := by
  intro ns
  induction ns with
  | nil =>
    intro ss h
    simp only [reconstructSections, Except.ok.injEq] at h
    rw [← h]
    rfl
  | cons n rest ih =>
    intro ss h
    simp only [reconstructSections] at h
    obtain ⟨s, hs, h2⟩ := except_bind_ok h
    obtain ⟨ss', hss, h3⟩ := except_bind_ok h2
    simp only [Except.ok.injEq] at h3
    rw [← h3]
    simp only [List.all_cons, Bool.and_eq_true]
    refine ⟨?_, ih ss' hss⟩
    unfold reconstructSection at hs
    obtain ⟨ps, hps, h4⟩ := except_bind_ok hs
    simp only [Except.ok.injEq] at h4
    rw [← h4]
    exact reconstructPhrases_punctOK st hst _ ps hps

theorem reconstruct_punctOK (st : Store) (tid : String) (d : Document)
    (hst : storePunctOK st = true)
    (h : reconstructDocument st tid = .ok d) : docPunctOK d = true := by
  unfold reconstructDocument at h
  split at h
  · exact absurd h (by simp)
  · obtain ⟨ss, hss, h2⟩ := except_bind_ok h
    simp only [Except.ok.injEq] at h2
    rw [docPunctOK, ← h2]
    exact reconstructSections_punctOK st hst _ ss hss

theorem findItem_isSome (t : String) (items : List XItem)
    (h : hasItem t items = true) : ∃ it, findItem t items = some it := by
  unfold hasItem at h
  obtain ⟨it, hmem, hp⟩ := List.any_eq_true.mp h
  cases hfind : findItem t items with
  | some it0 => exact ⟨it0, rfl⟩
  | none =>
    unfold findItem at hfind
    rw [List.find?_eq_none] at hfind
    exact absurd hp (by simpa using hfind it hmem)

/-- C2: punctuation exclusivity.  No tree produced by the Format
Parser has a Word with both the punctuation flag and morphemes; a
word-level unit containing a punctuation-type item parses to a
punctuation Word with zero morphemes even when a morpheme container is
present; and the Tree Reconstructor preserves the invariant from any
store in the shape the Graph Materializer writes (punctuation-flagged
word nodes own no `WORD_MADE_OF` edges). -/
theorem C2_punctuation_exclusivity :
    (∀ (x : XText) (d : Document) (ws : List ParseWarning),
      parseInterlinearText x = .ok (d, ws) → docPunctOK d = true) ∧
    (∀ (plang : Option String) (tgt : String) (xw : XWord) (w : Word)
        (ws : List ParseWarning),
      hasItem "punct" xw.items = true →
      parseWord plang tgt xw = .ok (w, ws) →
      w.is_punctuation = true ∧ w.morphemes = []) ∧
    (∀ (st : Store) (tid : String) (d : Document),
      storePunctOK st = true → reconstructDocument st tid = .ok d →
      docPunctOK d = true) := by
  refine ⟨parse_punctOK, ?_, fun st tid d hst h =>
    reconstruct_punctOK st tid d hst h⟩
  intro plang tgt xw w ws hpunct h
  obtain ⟨it, hit⟩ := findItem_isSome "punct" xw.items hpunct
  unfold parseWord at h
  rw [hit] at h
  simp only [Except.ok.injEq, Prod.mk.injEq] at h
  rw [← h.1]
  exact ⟨rfl, rfl⟩

/-- Witness for C2 at concrete inputs: a parsed document, a punctuation
unit with a morpheme container present, and a reconstructed document. -/
theorem C2_punctuation_exclusivity_witness :
    docPunctOK scenarioDParsed = true ∧
    (punctWord.is_punctuation = true ∧ punctWord.morphemes = []) ∧
    docPunctOK scenarioDReconstructed = true :=
  ⟨C2_punctuation_exclusivity.1 scenarioDX scenarioDParsed [] (by decide),
   C2_punctuation_exclusivity.2.1 none "w" xwPunct punctWord []
     (by decide) (by decide),
   C2_punctuation_exclusivity.2.2 scenarioDStore "T5"
     scenarioDReconstructed (by decide) (by decide)⟩

theorem natsFrom_chain :
    ∀ (l : List Nat) (i : Nat), natsFrom i l = true →
      List.Chain' (· < ·) l ∧ ∀ a ∈ l.head?, a = i := by
  intro l
  induction l with
  | nil => intro i _; exact ⟨List.chain'_nil, by simp⟩
  | cons a rest ih =>
    intro i h
    simp only [natsFrom, Bool.and_eq_true] at h
    have ha : a = i := beq_iff_eq.mp h.1
    obtain ⟨hc, hh⟩ := ih (i + 1) h.2
    constructor
    · rw [List.chain'_cons']
      refine ⟨fun b hb => ?_, hc⟩
      rw [hh b hb, ha]
      omega
    · simp [ha]

theorem reconstructPhrase_order (st : Store) (n : NodeUp) (p : Phrase)
    (h : reconstructPhrase st n = .ok p) : p.order = nodeOrder n := by
  unfold reconstructPhrase at h
  obtain ⟨ws, _, h2⟩ := except_bind_ok h
  simp only [Except.ok.injEq] at h2
  rw [← h2]
  rfl

theorem reconstructPhrases_orders (st : Store) :
    ∀ (ns : List NodeUp) (ps : List Phrase),
      reconstructPhrases st ns = .ok ps →
      ps.map Phrase.order = ns.map nodeOrder := by
  intro ns
  induction ns with
  | nil =>
    intro ps h
    simp only [reconstructPhrases, Except.ok.injEq] at h
    rw [← h]
    rfl
  | cons n rest ih =>
    intro ps h
    simp only [reconstructPhrases] at h
    obtain ⟨p, hp, h2⟩ := except_bind_ok h
    obtain ⟨ps', hps, h3⟩ := except_bind_ok h2
    simp only [Except.ok.injEq] at h3
    rw [← h3]
    simp only [List.map_cons]
    rw [reconstructPhrase_order st n p hp, ih ps' hps]

theorem reconstructSections_shape (st : Store) :
    ∀ (ns : List NodeUp) (ss : List Section),
      reconstructSections st ns = .ok ss →
      ss.map Section.order = ns.map nodeOrder ∧
      ∀ s ∈ ss, ∃ n ∈ ns,
        s.phrases.map Phrase.order =
          (readPhrases st n.id).map nodeOrder := by
  intro ns
  induction ns with
  | nil =>
    intro ss h
    simp only [reconstructSections, Except.ok.injEq] at h
    rw [← h]
    exact ⟨rfl, by simp⟩
  | cons n rest ih =>
    intro ss h
    simp only [reconstructSections] at h
    obtain ⟨s, hs, h2⟩ := except_bind_ok h
    obtain ⟨ss', hss, h3⟩ := except_bind_ok h2
    simp only [Except.ok.injEq] at h3
    rw [← h3]
    obtain ⟨ihm, ihex⟩ := ih ss' hss
    unfold reconstructSection at hs
    obtain ⟨ps, hps, h4⟩ := except_bind_ok hs
    simp only [Except.ok.injEq] at h4
    constructor
    · simp only [List.map_cons]
      rw [← h4, ihm]
      rfl
    · intro s' hs'
      rcases List.mem_cons.mp hs' with h5 | h5
      · subst h5
        refine ⟨n, List.mem_cons_self n rest, ?_⟩
        rw [← h4]
        exact reconstructPhrases_orders st _ ps hps
      · obtain ⟨n', hn', hrel⟩ := ihex s' h5
        exact ⟨n', List.mem_cons_of_mem n hn', hrel⟩

/-- C7: order monotonicity.  In every tree produced by the Format
Parser, and in every tree the Tree Reconstructor rebuilds from a store
whose ordered reads have the shape the Graph Materializer writes,
child `order` values within any parent are strictly increasing
starting at 0. -/
theorem C7_order_monotonicity :
    (∀ (x : XText) (d : Document) (ws : List ParseWarning),
      parseInterlinearText x = .ok (d, ws) →
      StrictlyIncreasingFrom0 (d.sections.map Section.order) ∧
      ∀ s ∈ d.sections,
        StrictlyIncreasingFrom0 (s.phrases.map Phrase.order)) ∧
    (∀ (st : Store) (tid : String) (d : Document),
      storeOrdersOK st = true → reconstructDocument st tid = .ok d →
      StrictlyIncreasingFrom0 (d.sections.map Section.order) ∧
      ∀ s ∈ d.sections,
        StrictlyIncreasingFrom0 (s.phrases.map Phrase.order)) := by
  constructor
  · intro x d ws h
    exact docOrdersOK_strict d (parse_ordersOK x d ws h)
  · intro st tid d hso h
    simp only [storeOrdersOK, Bool.and_eq_true, List.all_eq_true] at hso
    unfold reconstructDocument at h
    cases hfind : findNode st .text tid with
    | none => rw [hfind] at h; exact absurd h (by simp)
    | some n =>
      rw [hfind] at h
      obtain ⟨hmem, hkind, hid⟩ := findNode_mem st .text tid n hfind
      obtain ⟨ss, hss, h2⟩ := except_bind_ok h
      simp only [Except.ok.injEq] at h2
      obtain ⟨hord, hex⟩ := reconstructSections_shape st _ ss hss
      have hsec : natsFrom 0 ((readSections st tid).map nodeOrder) =
          true := by
        have := hso.1 n hmem
        simp [hkind, hid] at this
        exact this
      constructor
      · rw [← h2]
        have : ss.map Section.order =
            (readSections st tid).map nodeOrder := hord
        rw [show (Document.sections
            { id := some tid, title := getS n.props "title"
              source := getS n.props "source"
              comment := getS n.props "comment"
              default_language := getS n.props "language_code"
              sections := ss }) = ss from rfl, this]
        exact natsFrom_chain _ 0 hsec
      · intro s hs
        rw [← h2] at hs
        have hs' : s ∈ ss := hs
        obtain ⟨n', hn', hrel⟩ := hex s hs'
        obtain ⟨hmem', hkind'⟩ := readBy_mem st _ _ _ _ n' hn'
        have hph : natsFrom 0 ((readPhrases st n'.id).map nodeOrder) =
            true := by
          have := hso.2 n' hmem'
          simp [hkind'] at this
          exact this
        rw [hrel]
        exact natsFrom_chain _ 0 hph

/-- Witness for C7: the Scenario D parsed and reconstructed
documents. -/
theorem C7_order_monotonicity_witness :
    (StrictlyIncreasingFrom0
        (scenarioDParsed.sections.map Section.order) ∧
      ∀ s ∈ scenarioDParsed.sections,
        StrictlyIncreasingFrom0 (s.phrases.map Phrase.order)) ∧
    (StrictlyIncreasingFrom0
        (scenarioDReconstructed.sections.map Section.order) ∧
      ∀ s ∈ scenarioDReconstructed.sections,
        StrictlyIncreasingFrom0 (s.phrases.map Phrase.order)) :=
  ⟨C7_order_monotonicity.1 scenarioDX scenarioDParsed [] (by decide),
   C7_order_monotonicity.2 scenarioDStore "T5" scenarioDReconstructed
     (by decide) (by decide)⟩
